import Mathlib

/-!
# Verification of the blackjack game engine and services

A shallow embedding of the `blackjack-core` game engine, the
`blackjack-service` façade operations and the `blackjack-api` rate
limiter, together with proofs about the behaviour of those operations.

Modelling conventions:
* `Uuid` values are modelled as `Nat` (only identity/equality of ids is
  ever used by the code).
* `HashMap` fields are modelled as association lists.  `get_mut`-style
  in-place mutation of one entry becomes `aupdate`, `insert` becomes
  `ainsert` (replace-or-append), `remove` becomes a filter on the key.
* RFC3339 timestamp strings that are produced by `to_rfc3339` and later
  parsed back are modelled directly as integer seconds (`Int`); a stored
  string that may fail to parse (invitation `expires_at`) is modelled as
  `Option Int`, `none` standing for an unparseable string.
* The `u8` points counter is modelled as `Nat`: on every state reachable
  through the engine operations a hand's base value stays below 32 and at
  most four Aces exist in one deck, so points stay far below `2^8` and
  `u8` wrap-around never occurs in the source.
* `rand::rng().random_range(0..len)` returns an arbitrary index below
  `len`; the operations take an oracle argument (`i : Nat`, used as
  `i % len`, or a stream `rand : List Nat` for the dealer loop) which
  ranges over exactly the same draws.
* `&mut self` methods that can fail after mutating (for example
  `draw_card`, whose auto-finish branch propagates a `play_dealer` error
  after the card has already been drawn) return `Game × Except _ _`; in
  every early-error branch the returned game is the unchanged input.
-/

namespace Blackjack

instance {ε α : Type} [DecidableEq ε] [DecidableEq α] : DecidableEq (Except ε α) :=
  fun a b =>
    match a, b with
    | Except.ok x, Except.ok y =>
      if h : x = y then isTrue (by rw [h]) else isFalse (by intro hc; cases hc; exact h rfl)
    | Except.error x, Except.error y =>
      if h : x = y then isTrue (by rw [h]) else isFalse (by intro hc; cases hc; exact h rfl)
    | Except.ok _, Except.error _ => isFalse (by intro hc; cases hc)
    | Except.error _, Except.ok _ => isFalse (by intro hc; cases hc)

/-- Rust's `s.trim().is_empty()`: true exactly when every character of
`s` is whitespace (trimming removes leading and trailing whitespace, so
the trimmed string is empty iff no non-whitespace character exists). -/
def isBlank (s : String) : Bool :=
  s.toList.all Char.isWhitespace

/-- Association-list lookup, first entry with the given key. -/
def alookup {κ α : Type} [DecidableEq κ] (k : κ) : List (κ × α) → Option α
  | [] => none
  | (k', v) :: rest => if k' = k then some v else alookup k rest

/-- `HashMap::insert`: replace the entry for `k` if present, else append it. -/
def ainsert {κ α : Type} [DecidableEq κ] (k : κ) (v : α) (l : List (κ × α)) : List (κ × α) :=
  if (alookup k l).isSome then
    l.map fun kv => if kv.1 = k then (kv.1, v) else kv
  else
    l ++ [(k, v)]

/-- `HashMap::get_mut` followed by an in-place mutation of the entry. -/
def aupdate {κ α : Type} [DecidableEq κ] (k : κ) (f : α → α) (l : List (κ × α)) : List (κ × α) :=
  l.map fun kv => if kv.1 = k then (kv.1, f kv.2) else kv

/-- State of a player in the game (`PlayerState` in `blackjack-core`). -/
inductive PlayerState : Type
  | Active
  | Standing
  | Busted
deriving DecidableEq, Repr

/-- A single card (`Card` in `blackjack-core`); `id` models the `Uuid`. -/
structure Card : Type where
  id : Nat
  name : String
  value : Nat
  suit : String
deriving DecidableEq, Repr

/-- A player (`Player` in `blackjack-core`).  `ace_values` maps a card id
to `true` when that Ace is currently counted as 11. -/
structure Player : Type where
  email : String
  points : Nat
  cards_history : List Card
  ace_values : List (Nat × Bool)
  busted : Bool
  state : PlayerState
deriving DecidableEq, Repr

/-- `Player::new`. -/
def Player.new (email : String) : Player :=
  { email := email, points := 0, cards_history := [], ace_values := [],
    busted := false, state := PlayerState.Active }

/-- The body of the accumulation loop of `Player::recalculate_points`:
the card's value, plus 10 when the card is an Ace whose `ace_values`
entry is `true`. -/
def cardPoints (aces : List (Nat × Bool)) (c : Card) : Nat :=
  c.value + (if c.name = "A" ∧ alookup c.id aces = some true then 10 else 0)

/-- The total computed by the loop of `Player::recalculate_points`. -/
def handPoints (aces : List (Nat × Bool)) (cards : List Card) : Nat :=
  cards.foldl (fun acc c => acc + cardPoints aces c) 0

/-- `Player::recalculate_points`: recompute `points` from the hand and the
Ace flags, set `busted := points > 21`, and set `state := Busted` when
busted (leaving `state` unchanged otherwise). -/
def Player.recalculate_points (p : Player) : Player :=
  let pts := handPoints p.ace_values p.cards_history
  { p with points := pts,
           busted := decide (21 < pts),
           state := if 21 < pts then PlayerState.Busted else p.state }

/-- `Player::add_card`: an Ace is first registered in `ace_values` as
counting 1 (`false`), then the card is pushed and points recalculated. -/
def Player.add_card (p : Player) (c : Card) : Player :=
  let p1 := if c.name = "A" then { p with ace_values := ainsert c.id false p.ace_values } else p
  Player.recalculate_points { p1 with cards_history := p1.cards_history ++ [c] }

/-- Roles of game participants (`GameRole`). -/
inductive GameRole : Type
  | Creator
  | Player
  | Spectator
deriving DecidableEq, Repr

/-- Permissions (`GamePermission`). -/
inductive GamePermission : Type
  | InvitePlayers
  | KickPlayers
  | CloseEnrollment
  | FinishGame
  | ModifySettings
deriving DecidableEq, Repr

/-- `GameRole::has_permission`: the creator holds every permission, other
roles hold none. -/
def GameRole.has_permission (r : GameRole) (_perm : GamePermission) : Bool :=
  match r with
  | GameRole.Creator => true
  | GameRole.Player => false
  | GameRole.Spectator => false

/-- A participant record (`GameParticipant`), `joined_at` omitted (never read). -/
structure GameParticipant : Type where
  user_id : Nat
  email : String
  role : GameRole
deriving DecidableEq, Repr

/-- Errors of the core engine (`GameError` in `blackjack-core`). -/
inductive GameError : Type
  | GameNotFound
  | PlayerNotInGame
  | PlayerAlreadyBusted
  | InvalidPlayerCount
  | InvalidEmail
  | DeckEmpty
  | GameAlreadyFinished
  | CardNotFound
  | NotAnAce
  | NotPlayerTurn
  | PlayerNotActive
  | PlayerAlreadyEnrolled
  | EnrollmentNotClosed
  | GameNotActive
  | InsufficientPermissions
  | NotAParticipant
  | CannotKickCreator
deriving DecidableEq, Repr

/-- Player outcome in a finished game (`PlayerOutcome`). -/
inductive PlayerOutcome : Type
  | Won
  | Lost
  | Push
  | Busted
deriving DecidableEq, Repr

/-- `PlayerSummary`. -/
structure PlayerSummary : Type where
  points : Nat
  cards_count : Nat
  busted : Bool
deriving DecidableEq, Repr

/-- `PlayerResult`. -/
structure PlayerResult : Type where
  points : Nat
  cards_count : Nat
  busted : Bool
  outcome : PlayerOutcome
deriving DecidableEq, Repr

/-- `GameResult`. -/
structure GameResult : Type where
  winner : Option String
  tied_players : List String
  highest_score : Nat
  all_players : List (String × PlayerSummary)
  player_results : List (String × PlayerResult)
  dealer_points : Nat
  dealer_busted : Bool
deriving DecidableEq, Repr

/-- The game state (`Game` in `blackjack-core`).  The `id` field is
omitted (never read by any modelled operation);
`enrollment_start_time` is the parsed timestamp in seconds. -/
structure Game : Type where
  creator_id : Nat
  participants : List (Nat × GameParticipant)
  players : List (String × Player)
  dealer : Player
  available_cards : List Card
  finished : Bool
  turn_order : List String
  current_turn_index : Nat
  enrollment_timeout_seconds : Nat
  enrollment_start_time : Int
  enrollment_closed : Bool
  active : Bool
deriving DecidableEq, Repr

/-- The `SUITS` constant. -/
def SUITS : List String := ["Hearts", "Diamonds", "Clubs", "Spades"]

/-- The `CARD_TYPES` constant. -/
def CARD_TYPES : List (String × Nat) :=
  [("A", 1), ("2", 2), ("3", 3), ("4", 4), ("5", 5), ("6", 6), ("7", 7),
   ("8", 8), ("9", 9), ("10", 10), ("J", 10), ("Q", 10), ("K", 10)]

/-- The 52-card deck built by `Game::new`: for each suit, one card per
card type.  `Uuid::new_v4` yields distinct fresh ids, modelled as the
sequential ids `suitIndex * 13 + typeIndex`. -/
def initialDeck : List Card :=
  SUITS.enum.flatMap fun si =>
    CARD_TYPES.enum.map fun ti =>
      { id := si.1 * 13 + ti.1, name := ti.2.1, value := ti.2.2, suit := si.2 }

/-- `Game::new`: reject a blank creator email, then build the deck,
auto-enroll the creator as first player and creator participant. -/
def Game.new (creator_id : Nat) (creator_email : String) (timeout : Nat) (start : Int) :
    Except GameError Game :=
  if isBlank creator_email then Except.error GameError.InvalidEmail
  else Except.ok
    { creator_id := creator_id,
      participants := [(creator_id,
        { user_id := creator_id, email := creator_email, role := GameRole.Creator })],
      players := [(creator_email, Player.new creator_email)],
      dealer := Player.new "dealer",
      available_cards := initialDeck,
      finished := false,
      turn_order := [creator_email],
      current_turn_index := 0,
      enrollment_timeout_seconds := timeout,
      enrollment_start_time := start,
      enrollment_closed := false,
      active := true }

/-- `Game::get_current_player`. -/
def Game.get_current_player (g : Game) : Option String :=
  if g.turn_order = [] then none
  else g.turn_order[g.current_turn_index]?

/-- Whether the `turn_order` entry at `idx` is an Active enrolled player
(the loop-body test of `Game::advance_turn`). -/
def activeAt (g : Game) (idx : Nat) : Bool :=
  match g.turn_order[idx]? with
  | some email =>
    match alookup email g.players with
    | some p => decide (p.state = PlayerState.Active)
    | none => false
  | none => false

/-- The `loop` of `Game::advance_turn`.  The source loop increments the
index modulo `|turn_order|` until it either returns to the starting
index or finds an Active player; it therefore performs at most
`|turn_order|` iterations, so running it with `|turn_order|` units of
fuel computes the identical index (the fuel is never exhausted: after
`n` increments the index is back at `initial` and the first break
fires). -/
def advanceLoop (g : Game) (initial : Nat) (idx : Nat) : Nat → Nat
  | 0 => idx
  | fuel + 1 =>
    let idx' := (idx + 1) % g.turn_order.length
    if idx' = initial then idx'
    else if activeAt g idx' then idx'
    else advanceLoop g initial idx' fuel

/-- `Game::advance_turn`. -/
def Game.advance_turn (g : Game) : Game :=
  if g.turn_order = [] then g
  else { g with current_turn_index :=
          advanceLoop g g.current_turn_index g.current_turn_index g.turn_order.length }

/-- `Game::can_player_act`: enrollment closed, it is `email`'s turn, and
that player is Active. -/
def Game.can_player_act (g : Game) (email : String) : Bool :=
  if g.enrollment_closed = false then false
  else
    match g.get_current_player with
    | some current =>
      if current = email then
        match alookup email g.players with
        | some p => decide (p.state = PlayerState.Active)
        | none => false
      else false
    | none => false

/-- `Game::check_auto_finish`: all enrolled players Standing or Busted
(false for an empty player map). -/
def Game.check_auto_finish (g : Game) : Bool :=
  if g.players = [] then false
  else g.players.all fun ep =>
    decide (ep.2.state = PlayerState.Standing ∨ ep.2.state = PlayerState.Busted)

/-- Remove the card at index `i % len` from a non-empty deck and return
it (`random_range(0..len)` followed by `Vec::remove`); on an empty deck
(never used by callers, which check emptiness first) returns a dummy. -/
def drawAt (deck : List Card) (i : Nat) : Card × List Card :=
  match deck with
  | [] => ({ id := 0, name := "", value := 0, suit := "" }, [])
  | c :: rest =>
    let idx := i % (c :: rest).length
    ((c :: rest).getD idx c, (c :: rest).eraseIdx idx)

/-- The dealer `while` loop of `Game::play_dealer`: draw while
`points < 17` and not busted; fail with `DeckEmpty` (keeping the cards
already drawn) when the deck empties first. -/
def dealerLoop (dealer : Player) (deck : List Card) (rand : List Nat) :
    Player × List Card × Option GameError :=
  if dealer.points < 17 ∧ dealer.busted = false then
    match deck with
    | [] => (dealer, [], some GameError.DeckEmpty)
    | c :: rest =>
      let idx := (rand.headD 0) % (c :: rest).length
      dealerLoop (dealer.add_card ((c :: rest).getD idx c)) ((c :: rest).eraseIdx idx) rand.tail
  else (dealer, deck, none)
termination_by deck.length
decreasing_by
  rw [List.length_eraseIdx]
  have h : (rand.headD 0) % (c :: rest).length < (c :: rest).length :=
    Nat.mod_lt _ (Nat.succ_pos _)
  simp only [if_pos h]
  omega

/-- `Game::play_dealer`. -/
def Game.play_dealer (g : Game) (rand : List Nat) : Game × Option GameError :=
  if g.finished then (g, some GameError.GameAlreadyFinished)
  else
    match dealerLoop g.dealer g.available_cards rand with
    | (d, deck, some e) => ({ g with dealer := d, available_cards := deck }, some e)
    | (d, deck, none) =>
      let d' := if d.busted = false then { d with state := PlayerState.Standing } else d
      ({ g with dealer := d', available_cards := deck }, none)

/-- The auto-finish tail shared by `draw_card` and `stand`: when all
players are done, play the dealer and mark the game finished; a dealer
error is propagated with the mutations made so far kept. -/
def autoFinish (g : Game) (rand : List Nat) : Game × Option GameError :=
  if g.check_auto_finish then
    match g.play_dealer rand with
    | (g3, none) => ({ g3 with finished := true }, none)
    | (g3, some e) => (g3, some e)
  else (g, none)

/-- `Game::draw_card`. -/
def Game.draw_card (g : Game) (email : String) (i : Nat) (rand : List Nat) :
    Game × Except GameError Card :=
  if g.finished then (g, Except.error GameError.GameAlreadyFinished)
  else if g.available_cards = [] then (g, Except.error GameError.DeckEmpty)
  else if g.enrollment_closed = false then (g, Except.error GameError.EnrollmentNotClosed)
  else if g.can_player_act email = false then (g, Except.error GameError.NotPlayerTurn)
  else
    match alookup email g.players with
    | none => (g, Except.error GameError.PlayerNotInGame)
    | some p =>
      if p.busted then (g, Except.error GameError.PlayerAlreadyBusted)
      else if p.state ≠ PlayerState.Active then (g, Except.error GameError.PlayerNotActive)
      else
        let (card, deck') := drawAt g.available_cards i
        let ps := aupdate email (fun q => q.add_card card) g.players
        let g1 := { g with players := ps, available_cards := deck' }
        let g2 := g1.advance_turn
        match autoFinish g2 rand with
        | (g3, none) => (g3, Except.ok card)
        | (g3, some e) => (g3, Except.error e)

/-- `Game::stand`. -/
def Game.stand (g : Game) (email : String) (rand : List Nat) :
    Game × Except GameError Unit :=
  if g.finished then (g, Except.error GameError.GameAlreadyFinished)
  else if g.enrollment_closed = false then (g, Except.error GameError.EnrollmentNotClosed)
  else if g.can_player_act email = false then (g, Except.error GameError.NotPlayerTurn)
  else
    match alookup email g.players with
    | none => (g, Except.error GameError.PlayerNotInGame)
    | some p =>
      if p.state ≠ PlayerState.Active then (g, Except.error GameError.PlayerNotActive)
      else
        let ps := aupdate email (fun q => { q with state := PlayerState.Standing }) g.players
        let g1 := { g with players := ps }
        let g2 := g1.advance_turn
        match autoFinish g2 rand with
        | (g3, none) => (g3, Except.ok ())
        | (g3, some e) => (g3, Except.error e)

/-- `Game::add_player`. -/
def Game.add_player (g : Game) (email : String) : Game × Except GameError Unit :=
  if g.active = false then (g, Except.error GameError.GameNotActive)
  else if g.finished then (g, Except.error GameError.GameAlreadyFinished)
  else if g.enrollment_closed then (g, Except.error GameError.InvalidPlayerCount)
  else if isBlank email then (g, Except.error GameError.InvalidEmail)
  else if (alookup email g.players).isSome then (g, Except.error GameError.PlayerAlreadyEnrolled)
  else if 10 ≤ g.players.length then (g, Except.error GameError.InvalidPlayerCount)
  else
    ({ g with players := g.players ++ [(email, Player.new email)],
              turn_order := g.turn_order ++ [email] }, Except.ok ())

/-- `Game::close_enrollment`. -/
def Game.close_enrollment (g : Game) : Game × Except GameError Unit :=
  if g.finished then (g, Except.error GameError.GameAlreadyFinished)
  else ({ g with enrollment_closed := true, current_turn_index := 0 }, Except.ok ())

/-- `Game::set_ace_value`. -/
def Game.set_ace_value (g : Game) (email : String) (card_id : Nat) (as_eleven : Bool) :
    Game × Except GameError Unit :=
  if g.finished then (g, Except.error GameError.GameAlreadyFinished)
  else
    match alookup email g.players with
    | none => (g, Except.error GameError.PlayerNotInGame)
    | some p =>
      match p.cards_history.find? (fun c => c.id == card_id) with
      | none => (g, Except.error GameError.CardNotFound)
      | some card =>
        if card.name ≠ "A" then (g, Except.error GameError.NotAnAce)
        else
          let ps := aupdate email
            (fun q => Player.recalculate_points
              { q with ace_values := ainsert card_id as_eleven q.ace_values })
            g.players
          ({ g with players := ps }, Except.ok ())

/-- `Game::finish_game`. -/
def Game.finish_game (g : Game) : Game :=
  { g with finished := true }

/-- `Game::is_creator`. -/
def Game.is_creator (g : Game) (user_id : Nat) : Bool :=
  decide (g.creator_id = user_id)

/-- `Game::can_user_perform` (via `get_participant_role`). -/
def Game.can_user_perform (g : Game) (user_id : Nat) (perm : GamePermission) : Bool :=
  match alookup user_id g.participants with
  | some part => part.role.has_permission perm
  | none => false

/-- `Game::add_participant` (always with the `Player` role). -/
def Game.add_participant (g : Game) (user_id : Nat) (email : String) : Game :=
  let part : GameParticipant := { user_id := user_id, email := email, role := GameRole.Player }
  { g with participants := ainsert user_id part g.participants }

/-- `Game::is_enrollment_open`: not closed and the elapsed seconds since
`enrollment_start_time` are below the timeout (the stored timestamp
always parses back, being produced by `to_rfc3339`). -/
def Game.is_enrollment_open (g : Game) (now : Int) : Bool :=
  if g.enrollment_closed then false
  else decide (now - g.enrollment_start_time < (g.enrollment_timeout_seconds : Int))

/-- `Game::can_enroll`. -/
def Game.can_enroll (g : Game) (now : Int) : Bool :=
  g.is_enrollment_open now && decide (g.players.length < 10)

/-- The per-player outcome branch of `Game::calculate_results`. -/
def outcomeFor (dealer_score : Nat) (p : Player) : PlayerOutcome :=
  if p.busted then PlayerOutcome.Busted
  else if dealer_score = 0 then PlayerOutcome.Won
  else if dealer_score < p.points then PlayerOutcome.Won
  else if p.points = dealer_score then PlayerOutcome.Push
  else PlayerOutcome.Lost

/-- One iteration of the winner/highest-score/tied-players tracking in the
player loop of `Game::calculate_results` (the two syntactically repeated
blocks for `dealer_score == 0` and `points > dealer_score` are kept
separate, as in the source). -/
def winStep (dealer_score : Nat) (st : Option String × Nat × List String)
    (ep : String × Player) : Option String × Nat × List String :=
  let (winner, highest, tied) := st
  let (email, p) := ep
  if p.busted = false then
    if dealer_score = 0 then
      if p.points = highest ∧ 0 < highest then (winner, highest, tied ++ [email])
      else if highest < p.points then (some email, p.points, [])
      else (winner, highest, tied)
    else if dealer_score < p.points then
      if p.points = highest ∧ 0 < highest then (winner, highest, tied ++ [email])
      else if highest < p.points then (some email, p.points, [])
      else (winner, highest, tied)
    else (winner, highest, tied)
  else (winner, highest, tied)

/-- The final fix-up of `Game::calculate_results`: with a non-empty tie
list, the tracked winner is prepended to it and the single winner
cleared. -/
def tieFixup (winner : Option String) (tied : List String) : Option String × List String :=
  if tied ≠ [] then
    (none, match winner with
           | some w => w :: tied
           | none => tied)
  else (winner, tied)

/-- `Game::calculate_results`.  The single source loop over `players`
both inserts into `player_results` (here the `map`) and updates the
winner-tracking variables (here the `foldl` of `winStep`); the iteration
order over the `HashMap` is the entry order of the modelled list. -/
def Game.calculate_results (g : Game) : GameResult :=
  let all_players := ("dealer",
      ({ points := g.dealer.points, cards_count := g.dealer.cards_history.length,
         busted := g.dealer.busted } : PlayerSummary)) ::
    g.players.map (fun ep => (ep.1,
      ({ points := ep.2.points, cards_count := ep.2.cards_history.length,
         busted := ep.2.busted } : PlayerSummary)))
  let dealer_score := if g.dealer.busted then 0 else g.dealer.points
  let player_results := g.players.map (fun ep => (ep.1,
      ({ points := ep.2.points, cards_count := ep.2.cards_history.length,
         busted := ep.2.busted, outcome := outcomeFor dealer_score ep.2 } : PlayerResult)))
  let st := g.players.foldl (winStep dealer_score) (none, 0, [])
  let fin := tieFixup st.1 st.2.2
  { winner := fin.1, tied_players := fin.2, highest_score := st.2.1,
    all_players := all_players, player_results := player_results,
    dealer_points := g.dealer.points, dealer_busted := g.dealer.busted }

/-- Service-level errors (`GameError` in `blackjack-service`), restricted
to the variants the modelled operations can produce. -/
inductive SvcError : Type
  | GameNotFound
  | InsufficientPermissions
  | EnrollmentClosed
  | PlayerNotInGame
  | GameFull
  | GameNotActive
  | PlayerAlreadyEnrolled
  | InvitationNotFound
  | InvitationExpired
  | CoreError (e : GameError)
deriving DecidableEq, Repr

/-- The error remapping of `GameService::enroll_player`. -/
def mapEnrollErr (e : GameError) : SvcError :=
  match e with
  | GameError.GameNotActive => SvcError.GameNotActive
  | GameError.PlayerAlreadyEnrolled => SvcError.PlayerAlreadyEnrolled
  | other => SvcError.CoreError other

/-- `GameService::enroll_player`, applied to the one game the registry
resolved: enrollment-open and capacity checks, the engine `add_player`,
then registration of the `Player` participant role. -/
def svcEnroll (g : Game) (user_id : Nat) (email : String) (now : Int) :
    Game × Except SvcError Unit :=
  if g.is_enrollment_open now = false then (g, Except.error SvcError.EnrollmentClosed)
  else if g.can_enroll now = false then (g, Except.error SvcError.GameFull)
  else
    match g.add_player email with
    | (g', Except.error e) => (g', Except.error (mapEnrollErr e))
    | (g', Except.ok _) => (g'.add_participant user_id email, Except.ok ())

/-- `GameService::kick_player`, applied to the resolved game: permission
check, cannot-kick-creator check, enrollment-open check, then removal of
the target from `participants`, `players` and `turn_order`. -/
def svcKick (g : Game) (kicker_id : Nat) (target_id : Nat) : Game × Except SvcError String :=
  if g.can_user_perform kicker_id GamePermission.KickPlayers = false then
    (g, Except.error SvcError.InsufficientPermissions)
  else if g.is_creator target_id then
    (g, Except.error (SvcError.CoreError GameError.CannotKickCreator))
  else if g.enrollment_closed then (g, Except.error SvcError.EnrollmentClosed)
  else
    match alookup target_id g.participants with
    | none => (g, Except.error SvcError.PlayerNotInGame)
    | some part =>
      ({ g with participants := g.participants.filter (fun kv => kv.1 ≠ target_id),
                players := g.players.filter (fun kv => kv.1 ≠ part.email),
                turn_order := g.turn_order.filter (fun e => e ≠ part.email) },
       Except.ok part.email)

/-- `GameService::finish_game`, applied to the resolved game: permission
check, then `Game::finish_game` and `Game::calculate_results`. -/
def svcFinish (g : Game) (user_id : Nat) : Game × Except SvcError GameResult :=
  if g.can_user_perform user_id GamePermission.FinishGame = false then
    (g, Except.error SvcError.InsufficientPermissions)
  else
    let g' := g.finish_game
    (g', Except.ok g'.calculate_results)

/-- Status of a game invitation (`InvitationStatus`). -/
inductive InvitationStatus : Type
  | Pending
  | Accepted
  | Declined
  | Expired
deriving DecidableEq, Repr

/-- A game invitation (`GameInvitation`); `expires_at` is the parse of the
stored RFC3339 string, `none` when that string does not parse. -/
structure GameInvitation : Type where
  id : Nat
  game_id : Nat
  inviter_id : Nat
  invitee_email : String
  status : InvitationStatus
  expires_at : Option Int
deriving DecidableEq, Repr

/-- `GameInvitation::new`: status starts `Pending`, `expires_at` copied
from the game's enrollment expiration. -/
def GameInvitation.new (id game_id inviter_id : Nat) (invitee_email : String)
    (expires_at : Option Int) : GameInvitation :=
  { id := id, game_id := game_id, inviter_id := inviter_id,
    invitee_email := invitee_email, status := InvitationStatus.Pending,
    expires_at := expires_at }

/-- `GameInvitation::is_expired`: `now > expires_at`, and `false` when the
stored string does not parse. -/
def GameInvitation.is_expired (inv : GameInvitation) (now : Int) : Bool :=
  match inv.expires_at with
  | some e => decide (e < now)
  | none => false

/-- `InvitationService::accept`: look the invitation up; if time-expired,
mark it `Expired` and fail; otherwise mark it `Accepted` (the current
status is not consulted) and return it. -/
def InvitationService.accept (invs : List (Nat × GameInvitation)) (invitation_id : Nat)
    (now : Int) : List (Nat × GameInvitation) × Except SvcError GameInvitation :=
  match alookup invitation_id invs with
  | none => (invs, Except.error SvcError.InvitationNotFound)
  | some inv =>
    if inv.is_expired now then
      (aupdate invitation_id (fun i => { i with status := InvitationStatus.Expired }) invs,
       Except.error SvcError.InvitationExpired)
    else
      let inv' := { inv with status := InvitationStatus.Accepted }
      (aupdate invitation_id (fun i => { i with status := InvitationStatus.Accepted }) invs,
       Except.ok inv')

/-- `InvitationService::decline`: look the invitation up and mark it
`Declined` unconditionally (the current status is not consulted). -/
def InvitationService.decline (invs : List (Nat × GameInvitation)) (invitation_id : Nat) :
    List (Nat × GameInvitation) × Except SvcError Unit :=
  match alookup invitation_id invs with
  | none => (invs, Except.error SvcError.InvitationNotFound)
  | some _ =>
    (aupdate invitation_id (fun i => { i with status := InvitationStatus.Declined }) invs,
     Except.ok ())

/-- The API-level error of the rate limiter. -/
inductive ApiError : Type
  | RateLimitExceeded
deriving DecidableEq, Repr

/-- The pruning `while` loop of `RateLimiter::check_rate_limit`: pop from
the front while the front instant is strictly older than `now − 60`. -/
def pruneOld (now : Int) (q : List Int) : List Int :=
  q.dropWhile (fun t => decide (t < now - 60))

/-- `RateLimiter::check_rate_limit` on the key's bucket map: fetch (or
create) the bucket, prune instants older than one minute, fail without
recording when the remaining count reaches the limit, otherwise append
`now`.  The pruned (and possibly extended) bucket is written back in
both cases (`entry().or_default()` mutates in place). -/
def checkRateLimit (st : List (String × List Int)) (requests_per_minute : Nat)
    (key : String) (now : Int) : List (String × List Int) × Except ApiError Unit :=
  let q := (alookup key st).getD []
  let q' := pruneOld now q
  if requests_per_minute ≤ q'.length then
    (ainsert key q' st, Except.error ApiError.RateLimitExceeded)
  else
    (ainsert key (q' ++ [now]) st, Except.ok ())

/-! ## Specification predicates, the step relation, reachability -/

/-- Sum of the base card values of a list of cards. -/
def baseSum (cards : List Card) : Nat :=
  (cards.map Card.value).sum

/-- Number of cards in the hand that are Aces currently flagged as 11. -/
def elevenAceCount (aces : List (Nat × Bool)) (cards : List Card) : Nat :=
  cards.countP fun c => decide (c.name = "A" ∧ alookup c.id aces = some true)

/-- The points-consistency invariant of the specification (§8): `points`
equals the sum of base values plus 10 per Ace flagged as 11. -/
def pointsFormula (p : Player) : Prop :=
  p.points = baseSum p.cards_history + 10 * elevenAceCount p.ace_values p.cards_history

/-- The bust-coupling invariant: `busted` tracks `points > 21`, and a
busted player's `state` is `Busted`. -/
def bustCoupled (p : Player) : Prop :=
  p.busted = decide (21 < p.points) ∧ (p.busted = true → p.state = PlayerState.Busted)

instance (p : Player) : Decidable (pointsFormula p) := by
  unfold pointsFormula; exact inferInstance

instance (p : Player) : Decidable (bustCoupled p) := by
  unfold bustCoupled; exact inferInstance

/-- Sum of base card values over all enrolled players' hands. -/
def playersBase (g : Game) : Nat :=
  (g.players.map fun ep => baseSum ep.2.cards_history).sum

/-- State invariant of a game, established at `Game::new` and preserved by
every engine and service operation.  The quantitative parts
(`conserve`, `base_le`, `base_dealer_le`, `players_le`) make the deck
provably non-empty in every reachable state. -/
structure Inv (g : Game) : Prop where
  players_le : g.players.length ≤ 10
  keys_nodup : (g.players.map Prod.fst).Nodup
  formula : ∀ ep ∈ g.players, pointsFormula ep.2
  formula_dealer : pointsFormula g.dealer
  bust : ∀ ep ∈ g.players, bustCoupled ep.2
  bust_dealer : bustCoupled g.dealer
  deck_vals : ∀ c ∈ g.available_cards, 1 ≤ c.value ∧ c.value ≤ 10
  conserve : baseSum g.available_cards + playersBase g + baseSum g.dealer.cards_history = 340
  base_le : ∀ ep ∈ g.players, baseSum ep.2.cards_history ≤ 31
  base_dealer_le : baseSum g.dealer.cards_history ≤ 26
  open_hands : g.enrollment_closed = false → ∀ ep ∈ g.players, ep.2.cards_history = []
  dealer_aces_false : ∀ kv ∈ g.dealer.ace_values, kv.2 = false
  dealer_state_bust : g.dealer.state = PlayerState.Busted → g.dealer.busted = true

/-- One engine or service operation applied to a game (the state part of
the result; error branches return the game unchanged except where the
source itself keeps partial mutations). -/
inductive Step : Game → Game → Prop where
  | draw_card (g : Game) (email : String) (i : Nat) (rand : List Nat) :
      Step g (g.draw_card email i rand).1
  | stand (g : Game) (email : String) (rand : List Nat) : Step g (g.stand email rand).1
  | add_player (g : Game) (email : String) : Step g (g.add_player email).1
  | close_enrollment (g : Game) : Step g g.close_enrollment.1
  | set_ace_value (g : Game) (email : String) (card_id : Nat) (b : Bool) :
      Step g (g.set_ace_value email card_id b).1
  | play_dealer (g : Game) (rand : List Nat) : Step g (g.play_dealer rand).1
  | finish_game (g : Game) : Step g g.finish_game
  | enroll (g : Game) (user_id : Nat) (email : String) (now : Int) :
      Step g (svcEnroll g user_id email now).1
  | kick (g : Game) (kicker_id target_id : Nat) : Step g (svcKick g kicker_id target_id).1
  | finish_svc (g : Game) (user_id : Nat) : Step g (svcFinish g user_id).1

/-- A game state reachable from `Game::new` through engine/service
operations. -/
inductive Reachable : Game → Prop where
  | new (creator_id : Nat) (email : String) (timeout : Nat) (start : Int) (g : Game) :
      Game.new creator_id email timeout start = Except.ok g → Reachable g
  | step (g g' : Game) : Reachable g → Step g g' → Reachable g'

/-- The four fields of §8 terminal immutability: players, dealer, deck
and turn order agree. -/
def sameCore (g' g : Game) : Prop :=
  g'.players = g.players ∧ g'.dealer = g.dealer ∧
  g'.available_cards = g.available_cards ∧ g'.turn_order = g.turn_order

instance (g' g : Game) : Decidable (sameCore g' g) := by
  unfold sameCore; exact inferInstance

/-- Won-outcome filter used to state the results characterization. -/
def wonPlayers (dealer_score : Nat) (l : List (String × Player)) : List (String × Player) :=
  l.filter fun ep => decide (ep.2.busted = false ∧ (dealer_score = 0 ∨ dealer_score < ep.2.points))

/-- Maximum `points` over a list of keyed players (0 for the empty list). -/
def maxPts (w : List (String × Player)) : Nat :=
  (w.map fun ep => ep.2.points).foldr max 0

/-- The emails attaining the maximal score, in list order; empty when
that maximum is 0. -/
def champsOf (w : List (String × Player)) : List String :=
  if maxPts w = 0 then []
  else (w.filter fun ep => decide (ep.2.points = maxPts w)).map Prod.fst

/-- Maximum `points` among players with outcome `Won` (0 when none). -/
def maxWonPts (dealer_score : Nat) (l : List (String × Player)) : Nat :=
  maxPts (wonPlayers dealer_score l)

/-- The emails of the `Won` players attaining the maximal winning score,
in list order; empty when the maximal winning score is 0. -/
def champions (dealer_score : Nat) (l : List (String × Player)) : List String :=
  champsOf (wonPlayers dealer_score l)

/-- The sliding-window pruning in the words of the specification: keep
exactly the instants not older than `now − 60`. -/
def specPrune (now : Int) (q : List Int) : List Int :=
  q.filter fun t => decide (now - 60 ≤ t)

/-! ## Concrete states used by counterexamples and witnesses -/

/-- A syntactically valid placeholder (only used as a `getD` default that
is never hit, `Game.new` succeeding on the inputs below). -/
def dummyGame : Game :=
  { creator_id := 0, participants := [], players := [], dealer := Player.new "dealer",
    available_cards := [], finished := false, turn_order := [], current_turn_index := 0,
    enrollment_timeout_seconds := 0, enrollment_start_time := 0,
    enrollment_closed := false, active := true }

/-- A freshly created single-player game (creator `a@x`). -/
def exGame : Game := ((Game.new 0 "a@x" 300 0).toOption).getD dummyGame

/-- `exGame` after `close_enrollment`. -/
def exClosed : Game := exGame.close_enrollment.1

/-- One draw: the Ace of Hearts (deck index 0), 1 point. -/
def exDraw1 : Game := (exClosed.draw_card "a@x" 0 []).1

/-- Second draw: the King of Hearts, 11 points. -/
def exDraw2 : Game := (exDraw1.draw_card "a@x" 11 []).1

/-- Third draw: the 2 of Hearts, 13 points. -/
def exDraw3 : Game := (exDraw2.draw_card "a@x" 0 []).1

/-- Ace toggled to 11: 23 points, busted, state `Busted`. -/
def exBusted : Game := (exDraw3.set_ace_value "a@x" 0 true).1

/-- Ace toggled back to 1: 13 points, `busted` recomputed to `false`,
state still `Busted`. -/
def exUnbusted : Game := (exBusted.set_ace_value "a@x" 0 false).1

/-- `exDraw1` with the Ace toggled to 11 (11 points, flag `true`). -/
def exAce11 : Game := (exDraw1.set_ace_value "a@x" 0 true).1

/-- `exAce11` after `set_ace_value(.., true)` (the first half of the
claimed round trip): still 11 points. -/
def exAce11b : Game := (exAce11.set_ace_value "a@x" 0 true).1

/-- `exAce11b` after `set_ace_value(.., false)`: 1 point. -/
def exAce11c : Game := (exAce11b.set_ace_value "a@x" 0 false).1

/-- `exGame` with a second player `b@x` enrolled through the service (at
`now = 0`, inside the window). -/
def exTwo : Game := (svcEnroll exGame 1 "b@x" 0).1

/-- `exTwo` finished manually by the creator while enrollment is still
open. -/
def exTwoFin : Game := (svcFinish exTwo 0).1

/-- `exTwoFin` after the creator kicks `b@x` — a mutation of a finished
game. -/
def exTwoKick : Game := (svcKick exTwoFin 0 1).1

/-- One pending invitation (id 1) expiring at time 100. -/
def exInvs : List (Nat × GameInvitation) :=
  [(1, GameInvitation.new 1 5 0 "b@x" (some 100))]

/-- The invitation accepted at time 50 (before expiry). -/
def exInvsAccepted : List (Nat × GameInvitation) :=
  (InvitationService.accept exInvs 1 50).1

/-- `decline` applied to the already-accepted invitation. -/
def exInvsDeclined : List (Nat × GameInvitation) :=
  (InvitationService.decline exInvsAccepted 1).1

/-- Rate-limiter scenario (limit 3): bucket state after one call for key
`u` at time 0. -/
def rl1 : List (String × List Int) := (checkRateLimit [] 3 "u" 0).1

/-- After the second call (time 1). -/
def rl2 : List (String × List Int) := (checkRateLimit rl1 3 "u" 1).1

/-- After the third call (time 2). -/
def rl3 : List (String × List Int) := (checkRateLimit rl2 3 "u" 2).1

/-- The enrolled player `a@x` of `exDraw3` (13 points: Ace at 1, King,
2), used to witness the points-consistency claim. -/
def exPlayer3 : Player := (alookup "a@x" exDraw3.players).getD (Player.new "")

/-- The player `a@x` of `exBusted` (23 points, busted, state Busted). -/
def exPB : Player := (alookup "a@x" exBusted.players).getD (Player.new "")

/-- The player `a@x` of `exUnbusted` (13 points, `busted` recomputed to
false, state still Busted). -/
def exPU : Player := (alookup "a@x" exUnbusted.players).getD (Player.new "")

/-! ## Association list lemmas -/

theorem alookup_nil {κ α : Type} [DecidableEq κ] (k : κ) :
    alookup (α := α) k [] = none := rfl

theorem alookup_cons {κ α : Type} [DecidableEq κ] (k : κ) (kv : κ × α) (rest : List (κ × α)) :
    alookup k (kv :: rest) = if kv.1 = k then some kv.2 else alookup k rest := rfl

theorem aupdate_cons {κ α : Type} [DecidableEq κ] (k : κ) (f : α → α) (kv : κ × α)
    (rest : List (κ × α)) :
    aupdate k f (kv :: rest)
      = (if kv.1 = k then (kv.1, f kv.2) else kv) :: aupdate k f rest := by
  by_cases hk : kv.1 = k <;> simp [aupdate, hk]

theorem alookup_eq_none {κ α : Type} [DecidableEq κ] {k : κ} {l : List (κ × α)} :
    alookup k l = none ↔ k ∉ l.map Prod.fst := by
  induction l with
  | nil => simp [alookup_nil]
  | cons kv rest ih =>
    rw [alookup_cons]
    by_cases h : kv.1 = k
    · simp [h]
    · simp only [if_neg h, ih, List.map_cons, List.mem_cons]
      constructor
      · intro hn
        rintro (h1 | h2)
        · exact h h1.symm
        · exact hn h2
      · intro hn h2
        exact hn (Or.inr h2)

theorem alookup_mem {κ α : Type} [DecidableEq κ] {k : κ} {l : List (κ × α)} {v : α}
    (h : alookup k l = some v) : (k, v) ∈ l := by
  induction l with
  | nil => simp [alookup_nil] at h
  | cons kv rest ih =>
    rw [alookup_cons] at h
    by_cases hk : kv.1 = k
    · rw [if_pos hk] at h
      obtain ⟨k₀, v₀⟩ := kv
      have hk' : k₀ = k := hk
      have hv : v₀ = v := Option.some.inj h
      rw [← hk', ← hv]
      exact List.mem_cons_self _ _
    · rw [if_neg hk] at h
      exact List.mem_cons_of_mem _ (ih h)

theorem alookup_aupdate_self {κ α : Type} [DecidableEq κ] (k : κ) (f : α → α)
    (l : List (κ × α)) : alookup k (aupdate k f l) = (alookup k l).map f := by
  induction l with
  | nil => simp [alookup_nil, aupdate]
  | cons kv rest ih =>
    rw [aupdate_cons]
    by_cases hk : kv.1 = k
    · simp [alookup_cons, hk]
    · simp [alookup_cons, hk, ih]

theorem alookup_aupdate_ne {κ α : Type} [DecidableEq κ] {k k' : κ} (hne : k' ≠ k)
    (f : α → α) (l : List (κ × α)) : alookup k' (aupdate k f l) = alookup k' l := by
  induction l with
  | nil => simp [alookup_nil, aupdate]
  | cons kv rest ih =>
    rw [aupdate_cons]
    have hkk' : k ≠ k' := fun h => hne h.symm
    by_cases hk : kv.1 = k
    · have hne' : kv.1 ≠ k' := by rw [hk]; exact hkk'
      simp [alookup_cons, hk, hne', hkk', ih]
    · by_cases hk' : kv.1 = k' <;> simp [alookup_cons, hk, hk', hne, hkk', ih]

theorem ainsert_of_isSome {κ α : Type} [DecidableEq κ] {k : κ} (v : α) {l : List (κ × α)}
    (h : (alookup k l).isSome) : ainsert k v l = aupdate k (fun _ => v) l := by
  simp [ainsert, aupdate, h]

theorem ainsert_of_none {κ α : Type} [DecidableEq κ] {k : κ} (v : α) {l : List (κ × α)}
    (h : alookup k l = none) : ainsert k v l = l ++ [(k, v)] := by
  simp [ainsert, h]

theorem alookup_append {κ α : Type} [DecidableEq κ] (k : κ) (l₁ l₂ : List (κ × α)) :
    alookup k (l₁ ++ l₂)
      = match alookup k l₁ with
        | some v => some v
        | none => alookup k l₂ := by
  induction l₁ with
  | nil => simp [alookup_nil]
  | cons kv rest ih =>
    rw [List.cons_append, alookup_cons, alookup_cons]
    by_cases hk : kv.1 = k <;> simp [hk, ih]

theorem alookup_ainsert_self {κ α : Type} [DecidableEq κ] (k : κ) (v : α)
    (l : List (κ × α)) : alookup k (ainsert k v l) = some v := by
  by_cases h : (alookup k l).isSome
  · rw [ainsert_of_isSome v h, alookup_aupdate_self]
    obtain ⟨w, hw⟩ := Option.isSome_iff_exists.mp h
    simp [hw]
  · have hnone : alookup k l = none := Option.not_isSome_iff_eq_none.mp h
    rw [ainsert_of_none v hnone, alookup_append, hnone]
    simp [alookup_cons]

theorem alookup_ainsert_ne {κ α : Type} [DecidableEq κ] {k k' : κ} (hne : k' ≠ k)
    (v : α) (l : List (κ × α)) : alookup k' (ainsert k v l) = alookup k' l := by
  by_cases h : (alookup k l).isSome
  · rw [ainsert_of_isSome v h, alookup_aupdate_ne hne]
  · have hnone : alookup k l = none := Option.not_isSome_iff_eq_none.mp h
    rw [ainsert_of_none v hnone, alookup_append]
    cases hl : alookup k' l with
    | some w => simp
    | none =>
      simp only [alookup_cons, alookup_nil]
      rw [if_neg (show ¬k = k' from fun hh => hne hh.symm)]

theorem aupdate_map_fst {κ α : Type} [DecidableEq κ] (k : κ) (f : α → α)
    (l : List (κ × α)) : (aupdate k f l).map Prod.fst = l.map Prod.fst := by
  induction l with
  | nil => rfl
  | cons kv rest ih =>
    rw [aupdate_cons]
    by_cases hk : kv.1 = k <;> simp [hk, ih]

theorem mem_aupdate {κ α : Type} [DecidableEq κ] {k : κ} {f : α → α} {l : List (κ × α)}
    {kv : κ × α} (h : kv ∈ aupdate k f l) :
    kv ∈ l ∨ ∃ kv₀, kv₀ ∈ l ∧ kv₀.1 = k ∧ kv = (kv₀.1, f kv₀.2) := by
  unfold aupdate at h
  obtain ⟨kv₀, hmem, heq⟩ := List.mem_map.mp h
  by_cases hk : kv₀.1 = k
  · right
    refine ⟨kv₀, hmem, hk, ?_⟩
    rw [← heq, if_pos hk]
  · left
    rw [← heq, if_neg hk]
    exact hmem

theorem mem_aupdate_nodup {κ α : Type} [DecidableEq κ] {k : κ} {f : α → α}
    {l : List (κ × α)} {kv : κ × α} (hnd : (l.map Prod.fst).Nodup)
    (h : kv ∈ aupdate k f l) :
    (kv ∈ l ∧ kv.1 ≠ k) ∨ ∃ p, alookup k l = some p ∧ (k, p) ∈ l ∧ kv = (k, f p) := by
  induction l with
  | nil => simp [aupdate] at h
  | cons kv₁ rest ih =>
    have hnd' : (rest.map Prod.fst).Nodup := (List.nodup_cons.mp hnd).2
    have hk1 : kv₁.1 ∉ rest.map Prod.fst := (List.nodup_cons.mp hnd).1
    rw [aupdate_cons] at h
    by_cases hk : kv₁.1 = k
    · rw [if_pos hk] at h
      rcases List.mem_cons.mp h with heq | hmem
      · right
        refine ⟨kv₁.2, ?_, ?_, by rw [heq, hk]⟩
        · simp [alookup_cons, hk]
        · have : (kv₁.1, kv₁.2) ∈ kv₁ :: rest := by
            exact List.mem_cons_self _ _
          rw [← hk]
          exact this
      · left
        have hrest : kv ∈ rest := by
          rcases mem_aupdate hmem with h1 | ⟨kv₀, hkv₀, hkk, hkv⟩
          · exact h1
          · exfalso
            apply hk1
            rw [hk, ← hkk]
            exact List.mem_map_of_mem Prod.fst hkv₀
        refine ⟨List.mem_cons_of_mem _ hrest, ?_⟩
        intro hkvk
        apply hk1
        rw [hk, ← hkvk]
        exact List.mem_map_of_mem Prod.fst hrest
    · rw [if_neg hk] at h
      rcases List.mem_cons.mp h with heq | hmem
      · left
        refine ⟨heq ▸ List.mem_cons_self _ _, ?_⟩
        rw [heq]
        exact hk
      · rcases ih hnd' hmem with ⟨h1, h2⟩ | ⟨p, hp1, hp2, hp3⟩
        · exact Or.inl ⟨List.mem_cons_of_mem _ h1, h2⟩
        · exact Or.inr ⟨p, by simp [alookup_cons, hk, hp1], List.mem_cons_of_mem _ hp2, hp3⟩

/-! ## The points formula -/

theorem foldl_cardPoints (aces : List (Nat × Bool)) (cards : List Card) (acc : Nat) :
    cards.foldl (fun a c => a + cardPoints aces c) acc
      = acc + (cards.map (cardPoints aces)).sum := by
  induction cards generalizing acc with
  | nil => simp
  | cons c rest ih => simp [ih, Nat.add_assoc]

theorem handPoints_eq (aces : List (Nat × Bool)) (cards : List Card) :
    handPoints aces cards = baseSum cards + 10 * elevenAceCount aces cards := by
  rw [handPoints, foldl_cardPoints, Nat.zero_add]
  induction cards with
  | nil => simp [baseSum, elevenAceCount]
  | cons c rest ih =>
    simp only [List.map_cons, List.sum_cons, baseSum, elevenAceCount,
      List.countP_cons, ih, cardPoints] at *
    by_cases h : c.name = "A" ∧ alookup c.id aces = some true <;> simp [h] <;> ring

theorem recalculate_points_spec (p : Player) :
    (p.recalculate_points).points = handPoints p.ace_values p.cards_history ∧
    (p.recalculate_points).cards_history = p.cards_history ∧
    (p.recalculate_points).ace_values = p.ace_values ∧
    (p.recalculate_points).busted
      = decide (21 < handPoints p.ace_values p.cards_history) ∧
    (p.recalculate_points).state
      = (if 21 < handPoints p.ace_values p.cards_history then PlayerState.Busted
         else p.state) ∧
    (p.recalculate_points).email = p.email := by
  simp [Player.recalculate_points]

theorem pointsFormula_recalculate (p : Player) : pointsFormula p.recalculate_points := by
  simp [pointsFormula, Player.recalculate_points, handPoints_eq]

theorem add_card_fields (p : Player) (c : Card) :
    (p.add_card c).cards_history = p.cards_history ++ [c] ∧
    (p.add_card c).ace_values
      = (if c.name = "A" then ainsert c.id false p.ace_values else p.ace_values) ∧
    (p.add_card c).email = p.email := by
  by_cases h : c.name = "A" <;> simp [Player.add_card, Player.recalculate_points, h]

/-- §8 Points consistency: `Player::add_card` always re-establishes the
points formula, for any player value and any card. -/
theorem pointsFormula_add_card (p : Player) (c : Card) : pointsFormula (p.add_card c) := by
  unfold Player.add_card
  exact pointsFormula_recalculate _

theorem add_card_busted (p : Player) (c : Card) :
    (p.add_card c).busted = decide (21 < (p.add_card c).points) := by
  simp [Player.add_card, Player.recalculate_points]

/-! ## Ace toggling -/

theorem find?_of_filter_singleton {l : List Card} {p : Card → Bool} {a : Card}
    (h : l.filter p = [a]) : l.find? p = some a := by
  induction l with
  | nil => simp at h
  | cons c rest ih =>
    rw [List.filter_cons] at h
    by_cases hc : p c
    · rw [if_pos hc] at h
      have hca : c = a := (List.cons.inj h).1
      rw [List.find?_cons_of_pos _ hc, hca]
    · rw [if_neg hc] at h
      rw [List.find?_cons_of_neg _ hc]
      exact ih h

theorem elevenAceCount_ainsert_absent {cards : List Card} {aid : Nat}
    (b : Bool) (aces : List (Nat × Bool)) (h : ∀ c ∈ cards, c.id ≠ aid) :
    elevenAceCount (ainsert aid b aces) cards = elevenAceCount aces cards := by
  unfold elevenAceCount
  apply List.countP_congr
  intro c hc
  simp only [decide_eq_true_eq]
  rw [alookup_ainsert_ne (h c hc) b aces]

theorem elevenAceCount_ainsert_filter {cards : List Card} {aid : Nat} {a : Card}
    (b : Bool) (aces : List (Nat × Bool))
    (hfil : cards.filter (fun c => c.id == aid) = [a]) (ha : a.name = "A") :
    elevenAceCount (ainsert aid b aces) cards
        + (if alookup aid aces = some true then 1 else 0)
      = elevenAceCount aces cards + (if b then 1 else 0) := by
  induction cards with
  | nil => simp at hfil
  | cons c rest ih =>
    rw [List.filter_cons] at hfil
    by_cases hc : c.id = aid
    · rw [if_pos (by simpa using hc)] at hfil
      have hca : c = a := (List.cons.inj hfil).1
      have hrest : rest.filter (fun c => c.id == aid) = [] := (List.cons.inj hfil).2
      have habs : ∀ x ∈ rest, x.id ≠ aid := by
        intro x hx
        have := List.filter_eq_nil_iff.mp hrest x hx
        simpa using this
      unfold elevenAceCount
      rw [List.countP_cons, List.countP_cons]
      have hcnt := elevenAceCount_ainsert_absent b aces habs
      unfold elevenAceCount at hcnt
      rw [hcnt]
      have hname : c.name = "A" := by rw [hca]; exact ha
      have h1 : (decide (c.name = "A" ∧ alookup c.id (ainsert aid b aces) = some true))
          = b := by
        rw [hc, alookup_ainsert_self, hname]
        cases b <;> simp
      have h2 : (decide (c.name = "A" ∧ alookup c.id aces = some true))
          = (if alookup aid aces = some true then true else false) := by
        rw [hc, hname]
        by_cases hfl : alookup aid aces = some true <;> simp [hfl]
      rw [h1, h2]
      by_cases hfl : alookup aid aces = some true <;> cases b <;> simp [hfl]
    · rw [if_neg (by simpa using hc)] at hfil
      unfold elevenAceCount
      rw [List.countP_cons, List.countP_cons]
      have heq : (decide (c.name = "A" ∧ alookup c.id (ainsert aid b aces) = some true))
          = (decide (c.name = "A" ∧ alookup c.id aces = some true)) := by
        rw [alookup_ainsert_ne hc b aces]
      rw [heq]
      have := ih hfil
      unfold elevenAceCount at this
      omega

/-- Behaviour of a successful `Game::set_ace_value`: the updated player
is the old one with the Ace flag replaced and points recalculated; all
other game fields and players are untouched. -/
theorem set_ace_value_ok {g : Game} {email : String} {aid : Nat} (b : Bool) {p : Player}
    {a : Card} (hfin : g.finished = false) (hp : alookup email g.players = some p)
    (hfind : p.cards_history.find? (fun c => c.id == aid) = some a)
    (ha : a.name = "A") :
    (g.set_ace_value email aid b).2 = Except.ok () ∧
    alookup email (g.set_ace_value email aid b).1.players
      = some (Player.recalculate_points
          { p with ace_values := ainsert aid b p.ace_values }) ∧
    (∀ e, e ≠ email →
      alookup e (g.set_ace_value email aid b).1.players = alookup e g.players) ∧
    (g.set_ace_value email aid b).1.finished = g.finished ∧
    (g.set_ace_value email aid b).1.dealer = g.dealer ∧
    (g.set_ace_value email aid b).1.available_cards = g.available_cards ∧
    (g.set_ace_value email aid b).1.turn_order = g.turn_order := by
  unfold Game.set_ace_value
  rw [hfin]
  simp only [Bool.false_eq_true, if_false, hp, hfind, ha]
  simp only [ne_eq, not_true_eq_false, if_false, ite_false]
  refine ⟨trivial, ?_, ?_, trivial, trivial, trivial, trivial⟩
  · rw [alookup_aupdate_self, hp]
    rfl
  · intro e he
    exact alookup_aupdate_ne he _ _

/-! ## Reachability of the concrete example states -/

theorem exGame_new : Game.new 0 "a@x" 300 0 = Except.ok exGame := by decide

theorem reachable_exGame : Reachable exGame :=
  Reachable.new 0 "a@x" 300 0 exGame exGame_new

theorem reachable_exClosed : Reachable exClosed :=
  Reachable.step exGame exClosed reachable_exGame (Step.close_enrollment exGame)

theorem reachable_exDraw1 : Reachable exDraw1 :=
  Reachable.step exClosed exDraw1 reachable_exClosed (Step.draw_card exClosed "a@x" 0 [])

theorem reachable_exDraw2 : Reachable exDraw2 :=
  Reachable.step exDraw1 exDraw2 reachable_exDraw1 (Step.draw_card exDraw1 "a@x" 11 [])

theorem reachable_exDraw3 : Reachable exDraw3 :=
  Reachable.step exDraw2 exDraw3 reachable_exDraw2 (Step.draw_card exDraw2 "a@x" 0 [])

theorem reachable_exBusted : Reachable exBusted :=
  Reachable.step exDraw3 exBusted reachable_exDraw3
    (Step.set_ace_value exDraw3 "a@x" 0 true)

theorem reachable_exUnbusted : Reachable exUnbusted :=
  Reachable.step exBusted exUnbusted reachable_exBusted
    (Step.set_ace_value exBusted "a@x" 0 false)

theorem reachable_exAce11 : Reachable exAce11 :=
  Reachable.step exDraw1 exAce11 reachable_exDraw1
    (Step.set_ace_value exDraw1 "a@x" 0 true)

theorem reachable_exTwo : Reachable exTwo :=
  Reachable.step exGame exTwo reachable_exGame (Step.enroll exGame 1 "b@x" 0)

theorem reachable_exTwoFin : Reachable exTwoFin :=
  Reachable.step exTwo exTwoFin reachable_exTwo (Step.finish_svc exTwo 0)

theorem reachable_exTwoKick : Reachable exTwoKick :=
  Reachable.step exTwoFin exTwoKick reachable_exTwoFin (Step.kick exTwoFin 0 1)

/-! ## Claim C8: Ace toggle round trip -/

/-- C8 (amended): for a player whose stored points satisfy the
recalculation formula and whose Ace `a` is currently counted as 1 (its
`ace_values` entry is `false` — the state right after drawing it), in an
unfinished game, `set_ace_value(a, true)` yields points exactly 10
greater, and following it with `set_ace_value(a, false)` restores the
points to the value before the first call. -/
theorem ace_toggle_round_trip_from_one
    {g : Game} {email : String} {aid : Nat} {p : Player} {a : Card}
    (hfin : g.finished = false)
    (hp : alookup email g.players = some p)
    (hpf : pointsFormula p)
    (hfil : p.cards_history.filter (fun c => c.id == aid) = [a])
    (ha : a.name = "A")
    (hflag : alookup aid p.ace_values = some false) :
    (g.set_ace_value email aid true).2 = Except.ok () ∧
    ∃ p1, alookup email (g.set_ace_value email aid true).1.players = some p1 ∧
      p1.points = p.points + 10 ∧
      ((g.set_ace_value email aid true).1.set_ace_value email aid false).2
        = Except.ok () ∧
      ∃ p2, alookup email
          ((g.set_ace_value email aid true).1.set_ace_value email aid false).1.players
            = some p2 ∧
        p2.points = p.points := by
  have hfind := find?_of_filter_singleton hfil
  obtain ⟨hok1, hp1, _, hfin1, _, _, _⟩ := set_ace_value_ok true hfin hp hfind ha
  have hcnt1 := elevenAceCount_ainsert_filter true p.ace_values hfil ha
  rw [hflag] at hcnt1
  simp at hcnt1
  have hcards1 : (Player.recalculate_points
      { p with ace_values := ainsert aid true p.ace_values }).cards_history
      = p.cards_history := by
    simp [Player.recalculate_points]
  have hpts1 : (Player.recalculate_points
      { p with ace_values := ainsert aid true p.ace_values }).points
      = p.points + 10 := by
    simp only [Player.recalculate_points, handPoints_eq]
    rw [hcnt1, hpf]
    ring
  have hfind1 : (Player.recalculate_points
      { p with ace_values := ainsert aid true p.ace_values }).cards_history.find?
        (fun c => c.id == aid) = some a := by
    rw [hcards1]; exact hfind
  have hfin1' : (g.set_ace_value email aid true).1.finished = false := by
    rw [hfin1, hfin]
  obtain ⟨hok2, hp2, _, _, _, _, _⟩ := set_ace_value_ok false hfin1' hp1 hfind1 ha
  refine ⟨hok1, _, hp1, hpts1, hok2, _, hp2, ?_⟩
  have hcnt2 := elevenAceCount_ainsert_filter false (ainsert aid true p.ace_values) hfil ha
  rw [alookup_ainsert_self] at hcnt2
  simp at hcnt2
  simp only [Player.recalculate_points, handPoints_eq]
  rw [hpf]
  omega

/-- Witness for `ace_toggle_round_trip_from_one` at the reachable state
`exDraw1` (one drawn Ace, 1 point, flag `false`). -/
theorem ace_toggle_round_trip_witness :
    (exDraw1.finished = false ∧
     alookup "a@x" exDraw1.players
       = some { email := "a@x", points := 1,
                cards_history := [{ id := 0, name := "A", value := 1, suit := "Hearts" }],
                ace_values := [(0, false)], busted := false,
                state := PlayerState.Active }) ∧
    ((exDraw1.set_ace_value "a@x" 0 true).2 = Except.ok () ∧
     ∃ p1, alookup "a@x" (exDraw1.set_ace_value "a@x" 0 true).1.players = some p1 ∧
       p1.points = 1 + 10 ∧
       ((exDraw1.set_ace_value "a@x" 0 true).1.set_ace_value "a@x" 0 false).2
         = Except.ok () ∧
       ∃ p2, alookup "a@x"
           ((exDraw1.set_ace_value "a@x" 0 true).1.set_ace_value "a@x" 0 false).1.players
             = some p2 ∧
         p2.points = 1) :=
  ⟨⟨by decide, by decide⟩,
   @ace_toggle_round_trip_from_one exDraw1 "a@x" 0
     { email := "a@x", points := 1,
       cards_history := [{ id := 0, name := "A", value := 1, suit := "Hearts" }],
       ace_values := [(0, false)], busted := false, state := PlayerState.Active }
     { id := 0, name := "A", value := 1, suit := "Hearts" }
     (by decide) (by decide) (by decide) (by decide) (by decide) (by decide)⟩

/-- Counterexample to C8 as stated: at the reachable state `exAce11` the
player holds the Ace (card id 0) with 11 points, the Ace being currently
counted as 11; `set_ace_value(0, true)` then `set_ace_value(0, false)`
leaves the player at 1 point, not the prior 11. -/
theorem ace_toggle_round_trip_cex :
    Reachable exAce11 ∧
    exAce11.finished = false ∧
    (∃ p, alookup "a@x" exAce11.players = some p ∧ p.points = 11 ∧
      p.cards_history.find? (fun c => c.id == 0)
        = some { id := 0, name := "A", value := 1, suit := "Hearts" }) ∧
    ((exAce11.set_ace_value "a@x" 0 true).1.set_ace_value "a@x" 0 false).1
      = exAce11c ∧
    (alookup "a@x" exAce11c.players).map Player.points = some 1 ∧
    ¬(alookup "a@x" exAce11c.players).map Player.points = some 11 :=
  ⟨reachable_exAce11, by decide, by decide, by decide, by decide, by decide⟩

/-! ## Claim C7: invitation state machine -/

/-- C7 (amended): for an existing invitation, `accept` consults only the
time-based expiry, never the stored status: past `expires_at` it stores
`Expired` and fails with `InvitationExpired`, otherwise it stores
`Accepted` and returns the accepted invitation — even when the current
status is `Accepted`, `Declined` or `Expired`; `decline` unconditionally
stores `Declined` and succeeds.  In particular the Pending → Accepted
and Pending → Declined transitions of the claim do happen, but the
terminal statuses are not protected against later calls.  Other
invitations are untouched. -/
theorem invitation_transitions {invs : List (Nat × GameInvitation)} {iid : Nat}
    {now : Int} {inv : GameInvitation} (h : alookup iid invs = some inv) :
    (inv.is_expired now = true →
      (InvitationService.accept invs iid now).2
        = Except.error SvcError.InvitationExpired ∧
      alookup iid (InvitationService.accept invs iid now).1
        = some { inv with status := InvitationStatus.Expired }) ∧
    (inv.is_expired now = false →
      (InvitationService.accept invs iid now).2
        = Except.ok { inv with status := InvitationStatus.Accepted } ∧
      alookup iid (InvitationService.accept invs iid now).1
        = some { inv with status := InvitationStatus.Accepted }) ∧
    ((InvitationService.decline invs iid).2 = Except.ok () ∧
      alookup iid (InvitationService.decline invs iid).1
        = some { inv with status := InvitationStatus.Declined }) ∧
    (∀ j, j ≠ iid →
      alookup j (InvitationService.accept invs iid now).1 = alookup j invs ∧
      alookup j (InvitationService.decline invs iid).1 = alookup j invs) := by
  refine ⟨?_, ?_, ?_, ?_⟩
  · intro hexp
    simp only [InvitationService.accept, h, hexp, eq_self_iff_true, if_true]
    refine ⟨by trivial, ?_⟩
    rw [alookup_aupdate_self, h]
    rfl
  · intro hexp
    simp only [InvitationService.accept, h, hexp, Bool.false_eq_true, if_false]
    refine ⟨by trivial, ?_⟩
    rw [alookup_aupdate_self, h]
    rfl
  · simp only [InvitationService.decline, h]
    refine ⟨by trivial, ?_⟩
    rw [alookup_aupdate_self, h]
    rfl
  · intro j hj
    constructor
    · simp only [InvitationService.accept, h]
      by_cases hexp : inv.is_expired now <;>
        simp only [hexp, eq_self_iff_true, if_true, Bool.false_eq_true, if_false] <;>
        exact alookup_aupdate_ne hj _ _
    · simp only [InvitationService.decline, h]
      exact alookup_aupdate_ne hj _ _

/-- Witness for `invitation_transitions`: the pending invitation `exInvs`
(id 1, expires at 100) accepted at time 50. -/
theorem invitation_transitions_witness :
    alookup 1 exInvs = some (GameInvitation.new 1 5 0 "b@x" (some 100)) ∧
    ((GameInvitation.new 1 5 0 "b@x" (some 100)).is_expired 50 = false →
      (InvitationService.accept exInvs 1 50).2
        = Except.ok { GameInvitation.new 1 5 0 "b@x" (some 100) with
                      status := InvitationStatus.Accepted } ∧
      alookup 1 (InvitationService.accept exInvs 1 50).1
        = some { GameInvitation.new 1 5 0 "b@x" (some 100) with
                 status := InvitationStatus.Accepted }) :=
  ⟨by decide, (invitation_transitions (by decide)).2.1⟩

/-- Counterexample to C7 as stated: after the reachable sequence create →
accept, invitation 1 has terminal status `Accepted`; `decline` then
succeeds and overwrites it to `Declined` (the claim requires `decline` to
fail and leave the status unchanged), and a further `accept` overwrites
`Declined` back to `Accepted`. -/
theorem invitation_decline_cex :
    (alookup 1 exInvsAccepted).map GameInvitation.status
      = some InvitationStatus.Accepted ∧
    (InvitationService.decline exInvsAccepted 1).2 = Except.ok () ∧
    (alookup 1 exInvsDeclined).map GameInvitation.status
      = some InvitationStatus.Declined ∧
    (InvitationService.accept exInvsDeclined 1 60).2
      = Except.ok { id := 1, game_id := 5, inviter_id := 0, invitee_email := "b@x",
                    status := InvitationStatus.Accepted, expires_at := some 100 } :=
  ⟨by decide, by decide, by decide, by decide⟩

/-! ## Claim C9: rate limiter sliding window -/

theorem dropWhile_eq_filter_of_sorted (cut : Int) :
    ∀ (q : List Int), q.Pairwise (· ≤ ·) →
      q.dropWhile (fun t => decide (t < cut)) = q.filter (fun t => decide (cut ≤ t)) := by
  intro q hs
  induction q with
  | nil => rfl
  | cons t rest ih =>
    have hrest : rest.Pairwise (· ≤ ·) := (List.pairwise_cons.mp hs).2
    have hall : ∀ x ∈ rest, t ≤ x := (List.pairwise_cons.mp hs).1
    by_cases hlt : t < cut
    · rw [List.dropWhile_cons_of_pos (by simpa using hlt),
          List.filter_cons_of_neg (by simpa using hlt)]
      exact ih hrest
    · rw [List.dropWhile_cons_of_neg (by simpa using hlt),
          List.filter_cons_of_pos (by simpa using not_lt.mp hlt)]
      congr 1
      refine (List.filter_eq_self.mpr ?_).symm
      intro x hx
      simpa using le_trans (not_lt.mp hlt) (hall x hx)

/-- C9: `check_rate_limit` first prunes the key's bucket to exactly the
instants not older than `now − 60` (on the time-sorted buckets the code
maintains, the front-pruning loop equals the specification's filter),
then fails with `RateLimitExceeded` without recording the request when
the remaining count reaches the limit, and otherwise appends `now` and
succeeds; other keys' buckets are never touched.  Concretely, with limit
3, four consecutive calls for key `u` (times 0,1,2,3) give three
successes then `RateLimitExceeded`, while key `v` still succeeds. -/
theorem rate_limit_check {st : List (String × List Int)} (N : Nat) (key : String)
    (now : Int) (hs : ((alookup key st).getD []).Pairwise (· ≤ ·)) :
    (N ≤ (specPrune now ((alookup key st).getD [])).length →
      (checkRateLimit st N key now).2 = Except.error ApiError.RateLimitExceeded ∧
      alookup key (checkRateLimit st N key now).1
        = some (specPrune now ((alookup key st).getD []))) ∧
    ((specPrune now ((alookup key st).getD [])).length < N →
      (checkRateLimit st N key now).2 = Except.ok () ∧
      alookup key (checkRateLimit st N key now).1
        = some (specPrune now ((alookup key st).getD []) ++ [now])) ∧
    (∀ k, k ≠ key → alookup k (checkRateLimit st N key now).1 = alookup k st) ∧
    ((checkRateLimit [] 3 "u" 0).2 = Except.ok () ∧
     (checkRateLimit rl1 3 "u" 1).2 = Except.ok () ∧
     (checkRateLimit rl2 3 "u" 2).2 = Except.ok () ∧
     (checkRateLimit rl3 3 "u" 3).2 = Except.error ApiError.RateLimitExceeded ∧
     (checkRateLimit rl3 3 "v" 3).2 = Except.ok ()) := by
  have hprune : pruneOld now ((alookup key st).getD [])
      = specPrune now ((alookup key st).getD []) := by
    unfold pruneOld specPrune
    exact dropWhile_eq_filter_of_sorted (now - 60) _ hs
  simp only [checkRateLimit]
  rw [hprune]
  refine ⟨?_, ?_, ?_, by decide, by decide, by decide, by decide, by decide⟩
  · intro hN
    rw [if_pos hN]
    exact ⟨rfl, alookup_ainsert_self _ _ _⟩
  · intro hN
    rw [if_neg (by omega)]
    exact ⟨rfl, alookup_ainsert_self _ _ _⟩
  · intro k hk
    by_cases hN : N ≤ (specPrune now ((alookup key st).getD [])).length
    · rw [if_pos hN]
      exact alookup_ainsert_ne hk _ _
    · rw [if_neg hN]
      exact alookup_ainsert_ne hk _ _

/-! ## Claim C4: dealer play -/

theorem add_card_bust_state (p : Player) (c : Card) :
    (p.add_card c).busted = true → (p.add_card c).state = PlayerState.Busted := by
  unfold Player.add_card Player.recalculate_points
  intro h
  simp only at h ⊢
  rw [if_pos (of_decide_eq_true h)]

theorem dealerLoop_stop {d : Player} {deck : List Card} {r : List Nat}
    (h : ¬(d.points < 17 ∧ d.busted = false)) :
    dealerLoop d deck r = (d, deck, none) := by
  rw [dealerLoop.eq_def, if_neg h]

theorem dealerLoop_empty {d : Player} {r : List Nat}
    (h : d.points < 17 ∧ d.busted = false) :
    dealerLoop d [] r = (d, [], some GameError.DeckEmpty) := by
  rw [dealerLoop.eq_def, if_pos h]

theorem dealerLoop_draw {d : Player} {c : Card} {rest : List Card} {r : List Nat}
    (h : d.points < 17 ∧ d.busted = false) :
    dealerLoop d (c :: rest) r
      = dealerLoop
          (d.add_card ((c :: rest).getD (r.headD 0 % (c :: rest).length) c))
          ((c :: rest).eraseIdx (r.headD 0 % (c :: rest).length)) r.tail := by
  rw [dealerLoop.eq_def, if_pos h]

theorem dealerLoop_post_aux (n : Nat) : ∀ (d : Player) (deck : List Card) (r : List Nat),
    deck.length ≤ n →
    ((dealerLoop d deck r).2.2 = none →
      17 ≤ (dealerLoop d deck r).1.points ∨ (dealerLoop d deck r).1.busted = true) ∧
    (∀ e, (dealerLoop d deck r).2.2 = some e →
      e = GameError.DeckEmpty ∧ (dealerLoop d deck r).2.1 = [] ∧
      (dealerLoop d deck r).1.points < 17 ∧ (dealerLoop d deck r).1.busted = false) ∧
    (∃ drawn, (dealerLoop d deck r).1.cards_history = d.cards_history ++ drawn ∧
      (dealerLoop d deck r).2.1.length + drawn.length = deck.length) ∧
    ((d.busted = true → d.state = PlayerState.Busted) →
      (dealerLoop d deck r).1.busted = true →
      (dealerLoop d deck r).1.state = PlayerState.Busted) := by
  induction n with
  | zero =>
    intro d deck r hlen
    have hdeck : deck = [] := List.length_eq_zero.mp (Nat.le_zero.mp hlen)
    subst hdeck
    by_cases hcond : d.points < 17 ∧ d.busted = false
    · rw [dealerLoop_empty hcond]
      refine ⟨?_, ?_, ⟨[], by simp, by simp⟩, ?_⟩
      · intro h
        cases h
      · intro e he
        have he' : GameError.DeckEmpty = e := Option.some.inj he
        exact ⟨he'.symm, rfl, hcond.1, hcond.2⟩
      · intro h hb
        exact h hb
    · rw [dealerLoop_stop hcond]
      refine ⟨?_, ?_, ⟨[], by simp, by simp⟩, ?_⟩
      · intro _
        show 17 ≤ d.points ∨ d.busted = true
        by_cases hb : d.busted = true
        · exact Or.inr hb
        · left
          have hb' : d.busted = false := by
            cases hv : d.busted
            · rfl
            · exact absurd hv hb
          by_contra hlt
          push_neg at hcond hlt
          exact (hcond hlt) hb'
      · intro e he
        cases he
      · intro h hb
        exact h hb
  | succ n ihn =>
    intro d deck r hlen
    by_cases hcond : d.points < 17 ∧ d.busted = false
    · cases deck with
      | nil =>
        rw [dealerLoop_empty hcond]
        refine ⟨?_, ?_, ⟨[], by simp, by simp⟩, ?_⟩
        · intro h
          cases h
        · intro e he
          have he' : GameError.DeckEmpty = e := Option.some.inj he
          exact ⟨he'.symm, rfl, hcond.1, hcond.2⟩
        · intro h hb
          exact h hb
      | cons c rest =>
        rw [dealerLoop_draw hcond]
        have hidx : r.headD 0 % (c :: rest).length < (c :: rest).length :=
          Nat.mod_lt _ (by simp)
        have hlen' : ((c :: rest).eraseIdx (r.headD 0 % (c :: rest).length)).length ≤ n := by
          rw [List.length_eraseIdx, if_pos hidx]
          simp only [List.length_cons] at hlen ⊢
          omega
        obtain ⟨ih1, ih2, ih3, ih4⟩ :=
          ihn (d.add_card ((c :: rest).getD (r.headD 0 % (c :: rest).length) c))
            ((c :: rest).eraseIdx (r.headD 0 % (c :: rest).length)) r.tail hlen'
        obtain ⟨drawn, hd1, hd2⟩ := ih3
        refine ⟨ih1, ih2,
          ⟨(c :: rest).getD (r.headD 0 % (c :: rest).length) c :: drawn, ?_, ?_⟩,
          fun _ => ih4 (fun hb => add_card_bust_state _ _ hb)⟩
        · rw [hd1, (add_card_fields d _).1]
          simp
        · rw [List.length_eraseIdx, if_pos hidx] at hd2
          simp only [List.length_cons] at hd2 ⊢
          omega
    · rw [dealerLoop_stop hcond]
      refine ⟨?_, ?_, ⟨[], by simp, by simp⟩, ?_⟩
      · intro _
        show 17 ≤ d.points ∨ d.busted = true
        by_cases hb : d.busted = true
        · exact Or.inr hb
        · left
          have hb' : d.busted = false := by
            cases hv : d.busted
            · rfl
            · exact absurd hv hb
          by_contra hlt
          push_neg at hcond hlt
          exact (hcond hlt) hb'
      · intro e he
        cases he
      · intro h hb
        exact h hb

theorem dealerLoop_post (d : Player) (deck : List Card) (r : List Nat) :
    ((dealerLoop d deck r).2.2 = none →
      17 ≤ (dealerLoop d deck r).1.points ∨ (dealerLoop d deck r).1.busted = true) ∧
    (∀ e, (dealerLoop d deck r).2.2 = some e →
      e = GameError.DeckEmpty ∧ (dealerLoop d deck r).2.1 = [] ∧
      (dealerLoop d deck r).1.points < 17 ∧ (dealerLoop d deck r).1.busted = false) ∧
    (∃ drawn, (dealerLoop d deck r).1.cards_history = d.cards_history ++ drawn ∧
      (dealerLoop d deck r).2.1.length + drawn.length = deck.length) ∧
    ((d.busted = true → d.state = PlayerState.Busted) →
      (dealerLoop d deck r).1.busted = true →
      (dealerLoop d deck r).1.state = PlayerState.Busted) :=
  dealerLoop_post_aux deck.length d deck r (Nat.le_refl _)

/-- C4: on an unfinished game `play_dealer` repeatedly removes a card
from `available_cards` and appends it to the dealer's hand; when it
returns without error the dealer satisfies `points ≥ 17` or is busted,
with `state = Standing` exactly when not busted; the only possible error
is `DeckEmpty`, returned exactly when the deck has run out while the
dealer still must draw (`points < 17` and not busted), keeping the cards
drawn so far.  The enrolled players are never touched. -/
theorem play_dealer_spec (g : Game) (rand : List Nat)
    (hfin : g.finished = false)
    (hds : g.dealer.busted = true → g.dealer.state = PlayerState.Busted) :
    ((g.play_dealer rand).2 = none →
      (17 ≤ (g.play_dealer rand).1.dealer.points ∨
        (g.play_dealer rand).1.dealer.busted = true) ∧
      ((g.play_dealer rand).1.dealer.state = PlayerState.Standing ↔
        (g.play_dealer rand).1.dealer.busted = false)) ∧
    (∀ e, (g.play_dealer rand).2 = some e →
      e = GameError.DeckEmpty ∧
      (g.play_dealer rand).1.available_cards = [] ∧
      (g.play_dealer rand).1.dealer.points < 17 ∧
      (g.play_dealer rand).1.dealer.busted = false) ∧
    (∃ drawn, (g.play_dealer rand).1.dealer.cards_history
        = g.dealer.cards_history ++ drawn ∧
      (g.play_dealer rand).1.available_cards.length + drawn.length
        = g.available_cards.length) ∧
    (g.play_dealer rand).1.players = g.players := by
  obtain ⟨hnone, hsome, ⟨drawn, hdr1, hdr2⟩, hlatch⟩ :=
    dealerLoop_post g.dealer g.available_cards rand
  rcases hdl : dealerLoop g.dealer g.available_cards rand with ⟨d', deck', err⟩
  rw [hdl] at hnone hsome hdr1 hdr2 hlatch
  simp only at hnone hsome hdr1 hdr2 hlatch
  unfold Game.play_dealer
  rw [hfin]
  simp only [Bool.false_eq_true, if_false, hdl]
  cases err with
  | none =>
    simp only
    by_cases hb : d'.busted = false
    · rw [if_pos hb]
      refine ⟨?_, ?_, ⟨drawn, hdr1, hdr2⟩, by trivial⟩
      · intro _
        refine ⟨?_, by simp [hb]⟩
        rcases hnone rfl with h17 | hbt
        · exact Or.inl h17
        · rw [hbt] at hb
          cases hb
      · intro e he
        cases he
    · rw [if_neg hb]
      have hb' : d'.busted = true := by
        cases hv : d'.busted
        · exact absurd hv hb
        · rfl
      refine ⟨?_, ?_, ⟨drawn, hdr1, hdr2⟩, by trivial⟩
      · intro _
        refine ⟨Or.inr hb', ?_⟩
        constructor
        · intro hst
          rw [hlatch hds hb'] at hst
          cases hst
        · intro hbf
          rw [hb'] at hbf
          cases hbf
      · intro e he
        cases he
  | some e =>
    simp only
    obtain ⟨he, hdeck, hpts, hbust⟩ := hsome e rfl
    refine ⟨fun h => absurd h (by simp), ?_, ⟨drawn, hdr1, hdr2⟩, trivial⟩
    intro e' he'
    have hee : e = e' := Option.some.inj he'
    rw [← hee]
    exact ⟨he, hdeck, hpts, hbust⟩

/-- Witness for `play_dealer_spec` at `dummyGame` (unfinished, dealer not
busted, empty deck — the dealer must draw and the deck is empty, so the
characterized `DeckEmpty` branch is exercised). -/
theorem play_dealer_spec_witness :
    (dummyGame.finished = false ∧
     (dummyGame.dealer.busted = true → dummyGame.dealer.state = PlayerState.Busted)) ∧
    (((dummyGame.play_dealer []).2 = none →
      (17 ≤ (dummyGame.play_dealer []).1.dealer.points ∨
        (dummyGame.play_dealer []).1.dealer.busted = true) ∧
      ((dummyGame.play_dealer []).1.dealer.state = PlayerState.Standing ↔
        (dummyGame.play_dealer []).1.dealer.busted = false)) ∧
    (∀ e, (dummyGame.play_dealer []).2 = some e →
      e = GameError.DeckEmpty ∧
      (dummyGame.play_dealer []).1.available_cards = [] ∧
      (dummyGame.play_dealer []).1.dealer.points < 17 ∧
      (dummyGame.play_dealer []).1.dealer.busted = false) ∧
    (∃ drawn, (dummyGame.play_dealer []).1.dealer.cards_history
        = dummyGame.dealer.cards_history ++ drawn ∧
      (dummyGame.play_dealer []).1.available_cards.length + drawn.length
        = dummyGame.available_cards.length) ∧
    (dummyGame.play_dealer []).1.players = dummyGame.players) :=
  ⟨⟨by decide, by decide⟩, play_dealer_spec dummyGame [] (by decide) (by decide)⟩

/-! ## Claim C5: results computation -/

theorem winStep_skip (ds : Nat) (st : Option String × Nat × List String)
    (ep : String × Player)
    (h : ¬(ep.2.busted = false ∧ (ds = 0 ∨ ds < ep.2.points))) :
    winStep ds st ep = st := by
  obtain ⟨w, hsc, t⟩ := st
  obtain ⟨e, p⟩ := ep
  simp only at h
  unfold winStep
  by_cases hb : p.busted = false
  · push_neg at h
    obtain ⟨h0, hlt⟩ := h hb
    simp only [hb, eq_self_iff_true, if_true, if_neg h0,
      if_neg (by omega : ¬ds < p.points)]
  · simp [hb]

theorem foldl_winStep_eq_won (ds : Nat) :
    ∀ (l : List (String × Player)) (st : Option String × Nat × List String),
      l.foldl (winStep ds) st = (wonPlayers ds l).foldl (winStep ds) st := by
  intro l
  induction l with
  | nil => intro st; rfl
  | cons ep rest ih =>
    intro st
    by_cases hw : ep.2.busted = false ∧ (ds = 0 ∨ ds < ep.2.points)
    · rw [List.foldl_cons]
      unfold wonPlayers
      rw [List.filter_cons_of_pos (by simpa using hw), List.foldl_cons]
      exact ih _
    · rw [List.foldl_cons, winStep_skip ds st ep hw]
      unfold wonPlayers
      rw [List.filter_cons_of_neg (by simpa using hw)]
      exact ih st

theorem winStep_won (ds : Nat) (w : Option String) (h : Nat) (t : List String)
    (e : String) (p : Player)
    (hwon : p.busted = false ∧ (ds = 0 ∨ ds < p.points)) :
    winStep ds (w, h, t) (e, p)
      = if p.points = h ∧ 0 < h then (w, h, t ++ [e])
        else if h < p.points then (some e, p.points, [])
        else (w, h, t) := by
  obtain ⟨hb, hor⟩ := hwon
  unfold winStep
  simp only [hb, eq_self_iff_true, if_true]
  rcases hor with h0 | hlt
  · rw [if_pos h0]
  · by_cases h0 : ds = 0
    · rw [if_pos h0]
    · rw [if_neg h0, if_pos hlt]

theorem foldr_max_acc (l : List Nat) (a : Nat) : l.foldr max a = max (l.foldr max 0) a := by
  induction l with
  | nil => simp
  | cons x xs ih =>
    simp only [List.foldr_cons, ih]
    omega

theorem maxPts_cons (ep : String × Player) (w : List (String × Player)) :
    maxPts (ep :: w) = max ep.2.points (maxPts w) := rfl

theorem maxPts_append (w : List (String × Player)) (ep : String × Player) :
    maxPts (w ++ [ep]) = max (maxPts w) ep.2.points := by
  unfold maxPts
  rw [List.map_append, List.foldr_append]
  simp only [List.map_cons, List.map_nil, List.foldr_cons, List.foldr_nil]
  rw [foldr_max_acc]
  omega

theorem le_maxPts {w : List (String × Player)} {ep : String × Player} (h : ep ∈ w) :
    ep.2.points ≤ maxPts w := by
  induction w with
  | nil => cases h
  | cons x xs ih =>
    rw [maxPts_cons]
    rcases List.mem_cons.mp h with rfl | hm
    · omega
    · have := ih hm
      omega

theorem maxPts_attained {w : List (String × Player)} (h : maxPts w ≠ 0) :
    ∃ ep ∈ w, ep.2.points = maxPts w := by
  induction w with
  | nil => exact absurd rfl h
  | cons x xs ih =>
    rw [maxPts_cons] at h ⊢
    by_cases hle : maxPts xs ≤ x.2.points
    · exact ⟨x, List.mem_cons_self _ _, by omega⟩
    · have hx : maxPts xs ≠ 0 := by omega
      obtain ⟨ep, hmem, hpts⟩ := ih hx
      exact ⟨ep, List.mem_cons_of_mem _ hmem, by omega⟩

theorem champsOf_ne_nil {w : List (String × Player)} (h : maxPts w ≠ 0) :
    champsOf w ≠ [] := by
  unfold champsOf
  rw [if_neg h]
  obtain ⟨ep, hmem, hpts⟩ := maxPts_attained h
  intro hc
  have : ep ∈ w.filter fun ep => decide (ep.2.points = maxPts w) :=
    List.mem_filter.mpr ⟨hmem, by simpa using hpts⟩
  rw [List.eq_nil_iff_forall_not_mem] at hc
  exact hc ep.1 (List.mem_map_of_mem Prod.fst this)

/-- The winner/highest/tied fold of `calculate_results`, characterized on
a list of all-Won players: the tracked high score is the maximum score,
and the winner/tied variables track the champion list. -/
theorem champ_fold (ds : Nat) (w : List (String × Player))
    (hall : ∀ ep ∈ w, ep.2.busted = false ∧ (ds = 0 ∨ ds < ep.2.points)) :
    (w.foldl (winStep ds) (none, 0, [])).2.1 = maxPts w ∧
    (champsOf w = [] →
      (w.foldl (winStep ds) (none, 0, [])).1 = none ∧
      (w.foldl (winStep ds) (none, 0, [])).2.2 = []) ∧
    (∀ c cs, champsOf w = c :: cs →
      (w.foldl (winStep ds) (none, 0, [])).1 = some c ∧
      (w.foldl (winStep ds) (none, 0, [])).2.2 = cs) := by
  induction w using List.reverseRecOn with
  | nil =>
    refine ⟨rfl, fun _ => ⟨rfl, rfl⟩, ?_⟩
    intro c cs hc
    simp [champsOf, maxPts] at hc
  | append_singleton w ep ih =>
    obtain ⟨e, p⟩ := ep
    have hall' : ∀ ep ∈ w, ep.2.busted = false ∧ (ds = 0 ∨ ds < ep.2.points) :=
      fun ep hm => hall ep (List.mem_append_left _ hm)
    have hep := hall (e, p) (List.mem_append_right _ (List.mem_singleton_self _))
    obtain ⟨ih1, ih2, ih3⟩ := ih hall'
    rcases hst : w.foldl (winStep ds) (none, 0, []) with ⟨sw, sh, stt⟩
    rw [hst] at ih1 ih2 ih3
    rw [List.foldl_append, List.foldl_cons, List.foldl_nil, hst,
      winStep_won ds sw sh stt e p hep]
    rw [maxPts_append]
    subst ih1
    by_cases hA : p.points = maxPts w ∧ 0 < maxPts w
    · rw [if_pos hA]
      obtain ⟨hpe, hpos⟩ := hA
      have hmax : max (maxPts w) p.points = maxPts w := by omega
      rw [hmax]
      have hch : champsOf (w ++ [(e, p)]) = champsOf w ++ [e] := by
        unfold champsOf
        rw [maxPts_append, hmax, if_neg (by omega), if_neg (by omega),
          List.filter_append, List.filter_cons_of_pos (by simpa using hpe),
          List.filter_nil, List.map_append]
        rfl
      rw [hch]
      have hchw : champsOf w ≠ [] := champsOf_ne_nil (by omega)
      rcases hcw : champsOf w with _ | ⟨c, cs⟩
      · exact absurd hcw hchw
      · obtain ⟨hw1, hw2⟩ := ih3 c cs hcw
        refine ⟨rfl, ?_, ?_⟩
        · intro hcontra
          cases hcontra
        · intro c' cs' hc
          have hc1 : c = c' := (List.cons.inj hc).1
          have hc2 : cs ++ [e] = cs' := (List.cons.inj hc).2
          constructor
          · show sw = some c'
            rw [← hc1]
            exact hw1
          · show stt ++ [e] = cs'
            rw [← hc2]
            have hw2' : stt = cs := hw2
            rw [hw2']
    · rw [if_neg hA]
      by_cases hB : maxPts w < p.points
      · rw [if_pos hB]
        have hmax : max (maxPts w) p.points = p.points := by omega
        rw [hmax]
        have hch : champsOf (w ++ [(e, p)]) = [e] := by
          unfold champsOf
          rw [maxPts_append, hmax, if_neg (by omega),
            List.filter_append, List.filter_cons_of_pos (by simp),
            List.filter_nil]
          have hfw : w.filter (fun ep => decide (ep.2.points = p.points)) = [] := by
            rw [List.filter_eq_nil_iff]
            intro ep hm
            have := le_maxPts hm
            simp only [decide_eq_true_eq]
            omega
          rw [hfw]
          rfl
        rw [hch]
        refine ⟨rfl, ?_, ?_⟩
        · intro hc
          cases hc
        · intro c' cs' hc
          have hc' : e = c' ∧ [] = cs' := by
            have := List.cons.inj hc
            exact ⟨this.1, this.2⟩
          exact ⟨by rw [hc'.1], by rw [hc'.2]⟩
      · rw [if_neg hB]
        push_neg at hA hB
        by_cases h0 : maxPts w = 0
        · have hp0 : p.points = 0 := by omega
          have hmax : max (maxPts w) p.points = 0 := by omega
          rw [hmax]
          have hch : champsOf (w ++ [(e, p)]) = [] := by
            unfold champsOf
            rw [maxPts_append, hmax]
            simp
          rw [hch]
          have hchw : champsOf w = [] := by
            unfold champsOf
            rw [if_pos h0]
          obtain ⟨hw1, hw2⟩ := ih2 hchw
          refine ⟨by show maxPts w = 0; exact h0, fun _ => ⟨hw1, hw2⟩, ?_⟩
          intro c cs hc
          cases hc
        · have hpe : p.points ≠ maxPts w := by
            intro hc
            exact h0 (Nat.le_zero.mp (hA hc))
          have hplt : p.points < maxPts w := by omega
          have hmax : max (maxPts w) p.points = maxPts w := by omega
          rw [hmax]
          have hch : champsOf (w ++ [(e, p)]) = champsOf w := by
            unfold champsOf
            rw [maxPts_append, hmax, if_neg h0, if_neg h0,
              List.filter_append, List.filter_cons_of_neg (by simpa using hpe),
              List.filter_nil, List.append_nil]
          rw [hch]
          exact ⟨rfl, ih2, ih3⟩

theorem alookup_map_value {κ α β : Type} [DecidableEq κ] (k : κ) (f : α → β)
    (l : List (κ × α)) :
    alookup k (l.map fun kv => (kv.1, f kv.2)) = (alookup k l).map f := by
  induction l with
  | nil => rfl
  | cons kv rest ih =>
    rw [List.map_cons, alookup_cons, alookup_cons]
    by_cases hk : kv.1 = k <;> simp [hk, ih]

theorem outcomeFor_spec (ds : Nat) (p : Player) :
    outcomeFor ds p
      = (if p.busted then PlayerOutcome.Busted
         else if ds = 0 ∨ ds < p.points then PlayerOutcome.Won
         else if p.points = ds ∧ ds ≠ 0 then PlayerOutcome.Push
         else PlayerOutcome.Lost) := by
  unfold outcomeFor
  by_cases hb : p.busted
  · simp [hb]
  · simp only [hb, Bool.false_eq_true, if_false]
    by_cases h0 : ds = 0
    · simp [h0]
    · simp only [h0, eq_self_iff_true, if_false, ite_false]
      by_cases hlt : ds < p.points
      · simp [hlt, h0]
      · simp only [hlt, if_false, ite_false]
        by_cases heq : p.points = ds
        · simp [heq, h0, hlt]
        · simp [heq, h0, hlt]

theorem outcomeFor_won_iff (ds : Nat) (p : Player) :
    outcomeFor ds p = PlayerOutcome.Won
      ↔ (p.busted = false ∧ (ds = 0 ∨ ds < p.points)) := by
  unfold outcomeFor
  by_cases hb : p.busted
  · simp [hb]
  · have hb' : p.busted = false := by
      cases hv : p.busted
      · rfl
      · exact absurd hv hb
    by_cases h0 : ds = 0
    · simp [hb', h0]
    · by_cases hlt : ds < p.points
      · simp [hb', h0, hlt]
      · by_cases heq : p.points = ds <;> simp [hb', h0, hlt, heq]

/-- The winner-tracking core of `calculate_results`: `highest_score` is
the maximal points among `Won` players (0 when none), and
`winner`/`tied_players` are determined by the champion list. -/
theorem calc_results_winner_core (g : Game) :
    g.calculate_results.highest_score
      = maxWonPts (if g.dealer.busted then 0 else g.dealer.points) g.players ∧
    (champions (if g.dealer.busted then 0 else g.dealer.points) g.players = [] →
      g.calculate_results.winner = none ∧ g.calculate_results.tied_players = []) ∧
    (∀ c, champions (if g.dealer.busted then 0 else g.dealer.points) g.players = [c] →
      g.calculate_results.winner = some c ∧ g.calculate_results.tied_players = []) ∧
    (∀ c cs, cs ≠ [] →
      champions (if g.dealer.busted then 0 else g.dealer.points) g.players = c :: cs →
      g.calculate_results.winner = none ∧
      g.calculate_results.tied_players = c :: cs) := by
  have hall : ∀ ep ∈ wonPlayers (if g.dealer.busted then 0 else g.dealer.points) g.players,
      ep.2.busted = false ∧
      ((if g.dealer.busted then 0 else g.dealer.points) = 0 ∨
        (if g.dealer.busted then 0 else g.dealer.points) < ep.2.points) := by
    intro ep hm
    exact of_decide_eq_true (List.mem_filter.mp hm).2
  obtain ⟨hc1, hc2, hc3⟩ :=
    champ_fold (if g.dealer.busted then 0 else g.dealer.points)
      (wonPlayers (if g.dealer.busted then 0 else g.dealer.points) g.players) hall
  have hfold := foldl_winStep_eq_won (if g.dealer.busted then 0 else g.dealer.points)
    g.players (none, 0, [])
  simp only [Game.calculate_results, hfold]
  refine ⟨hc1, ?_, ?_, ?_⟩
  · intro hch
    obtain ⟨hw, ht⟩ := hc2 hch
    unfold tieFixup
    rw [ht]
    simp [hw]
  · intro c hch
    obtain ⟨hw, ht⟩ := hc3 c [] hch
    unfold tieFixup
    rw [ht]
    simp [hw]
  · intro c cs hcs hch
    obtain ⟨hw, ht⟩ := hc3 c cs hch
    unfold tieFixup
    rw [ht, hw]
    simp [hcs]

/-- C5 (amended): `calculate_results` assigns outcomes exactly as the
claim states; `highest_score` is the maximum points among players with
outcome `Won` (0 when there are none); and, writing `champions` for the
Won players attaining `highest_score` when `highest_score > 0` (the
empty list when `highest_score = 0`), `winner` is `Some` of the unique
champion, `None` on a tie or when `highest_score = 0`, and
`tied_players` lists all champions when there are at least two, else is
empty.  In particular when every Won player has 0 points (dealer score
0 against empty hands) the winner is `None` even if unique.  All of
`highest_score`, `winner` and the champion set are independent of the
iteration order over `players`. -/
theorem calculate_results_spec (g g' : Game)
    (hperm : g'.players.Perm g.players) (hdealer : g'.dealer = g.dealer) :
    (∀ e p, alookup e g.players = some p →
      alookup e g.calculate_results.player_results
        = some { points := p.points, cards_count := p.cards_history.length,
                 busted := p.busted,
                 outcome :=
                   if p.busted then PlayerOutcome.Busted
                   else if (if g.dealer.busted then 0 else g.dealer.points) = 0 ∨
                       (if g.dealer.busted then 0 else g.dealer.points) < p.points then
                     PlayerOutcome.Won
                   else if p.points = (if g.dealer.busted then 0 else g.dealer.points) ∧
                       (if g.dealer.busted then 0 else g.dealer.points) ≠ 0 then
                     PlayerOutcome.Push
                   else PlayerOutcome.Lost }) ∧
    (wonPlayers (if g.dealer.busted then 0 else g.dealer.points) g.players
      = g.players.filter fun ep =>
          decide (outcomeFor (if g.dealer.busted then 0 else g.dealer.points) ep.2
            = PlayerOutcome.Won)) ∧
    g.calculate_results.highest_score
      = maxWonPts (if g.dealer.busted then 0 else g.dealer.points) g.players ∧
    ((champions (if g.dealer.busted then 0 else g.dealer.points) g.players = [] →
      g.calculate_results.winner = none ∧ g.calculate_results.tied_players = []) ∧
    (∀ c, champions (if g.dealer.busted then 0 else g.dealer.points) g.players = [c] →
      g.calculate_results.winner = some c ∧ g.calculate_results.tied_players = []) ∧
    (∀ c cs, cs ≠ [] →
      champions (if g.dealer.busted then 0 else g.dealer.points) g.players = c :: cs →
      g.calculate_results.winner = none ∧
      g.calculate_results.tied_players = c :: cs)) ∧
    (g.calculate_results.dealer_points = g.dealer.points ∧
     g.calculate_results.dealer_busted = g.dealer.busted) ∧
    (g'.calculate_results.highest_score = g.calculate_results.highest_score ∧
     g'.calculate_results.winner = g.calculate_results.winner ∧
     (g'.calculate_results.tied_players).Perm g.calculate_results.tied_players) := by
  obtain ⟨hh, hnil, hone, hmany⟩ := calc_results_winner_core g
  obtain ⟨hh', hnil', hone', hmany'⟩ := calc_results_winner_core g'
  have hds : (if g'.dealer.busted then 0 else g'.dealer.points)
      = (if g.dealer.busted then 0 else g.dealer.points) := by rw [hdealer]
  have hwonperm : (wonPlayers (if g.dealer.busted then 0 else g.dealer.points)
      g'.players).Perm
      (wonPlayers (if g.dealer.busted then 0 else g.dealer.points) g.players) :=
    hperm.filter _
  haveI : Std.Commutative (fun (a b : Nat) => max a b) := ⟨fun a b => by omega⟩
  haveI : Std.Associative (fun (a b : Nat) => max a b) := ⟨fun a b c => by omega⟩
  have hmaxperm : maxPts (wonPlayers (if g.dealer.busted then 0 else g.dealer.points)
      g'.players)
      = maxPts (wonPlayers (if g.dealer.busted then 0 else g.dealer.points) g.players) := by
    unfold maxPts
    exact (hwonperm.map _).foldr_eq _
  have hchperm : (champions (if g.dealer.busted then 0 else g.dealer.points)
      g'.players).Perm
      (champions (if g.dealer.busted then 0 else g.dealer.points) g.players) := by
    unfold champions champsOf
    rw [hmaxperm]
    by_cases h0 : maxPts (wonPlayers (if g.dealer.busted then 0 else g.dealer.points)
        g.players) = 0
    · rw [if_pos h0, if_pos h0]
    · rw [if_neg h0, if_neg h0]
      exact (hwonperm.filter _).map _
  refine ⟨?_, ?_, hh, ⟨hnil, hone, hmany⟩, ⟨rfl, rfl⟩, ?_⟩
  · intro e p hp
    have halm := alookup_map_value e
      (fun q => ({ points := q.points, cards_count := q.cards_history.length,
                   busted := q.busted,
                   outcome := outcomeFor (if g.dealer.busted then 0 else g.dealer.points) q }
        : PlayerResult)) g.players
    simp only [Game.calculate_results]
    rw [halm, hp]
    simp [outcomeFor_spec]
  · unfold wonPlayers
    apply List.filter_congr
    intro ep _
    rw [decide_eq_decide]
    exact (outcomeFor_won_iff _ _).symm
  · rw [hds] at hh' hnil' hone' hmany'
    refine ⟨by rw [hh, hh']; exact hmaxperm, ?_, ?_⟩
    · rcases hch : champions (if g.dealer.busted then 0 else g.dealer.points) g.players
        with _ | ⟨c, cs⟩
      · have hch' : champions (if g.dealer.busted then 0 else g.dealer.points)
            g'.players = [] := by
          have := hchperm
          rw [hch] at this
          exact this.eq_nil
        rw [(hnil hch).1, (hnil' hch').1]
      · cases cs with
        | nil =>
          have hch' : champions (if g.dealer.busted then 0 else g.dealer.points)
              g'.players = [c] := by
            have := hchperm
            rw [hch] at this
            exact List.perm_singleton.mp this
          rw [(hone c hch).1, (hone' c hch').1]
        | cons c2 cs2 =>
          have hlen' : (champions (if g.dealer.busted then 0 else g.dealer.points)
              g'.players).length = (c :: c2 :: cs2).length := by
            rw [← hch]
            exact hchperm.length_eq
          rcases hch2 : champions (if g.dealer.busted then 0 else g.dealer.points)
              g'.players with _ | ⟨d1, ds1⟩
          · rw [hch2] at hlen'
            simp at hlen'
          · have hds1 : ds1 ≠ [] := by
              rw [hch2] at hlen'
              simp only [List.length_cons] at hlen'
              intro hc
              rw [hc] at hlen'
              simp at hlen'
            rw [(hmany c (c2 :: cs2) (by intro hc; cases hc) hch).1,
              (hmany' d1 ds1 hds1 hch2).1]
    · rcases hch : champions (if g.dealer.busted then 0 else g.dealer.points) g.players
        with _ | ⟨c, cs⟩
      · have hch' : champions (if g.dealer.busted then 0 else g.dealer.points)
            g'.players = [] := by
          have := hchperm
          rw [hch] at this
          exact this.eq_nil
        rw [(hnil hch).2, (hnil' hch').2]
      · cases cs with
        | nil =>
          have hch' : champions (if g.dealer.busted then 0 else g.dealer.points)
              g'.players = [c] := by
            have := hchperm
            rw [hch] at this
            exact List.perm_singleton.mp this
          rw [(hone c hch).2, (hone' c hch').2]
        | cons c2 cs2 =>
          have hlen' : (champions (if g.dealer.busted then 0 else g.dealer.points)
              g'.players).length = (c :: c2 :: cs2).length := by
            rw [← hch]
            exact hchperm.length_eq
          rcases hch2 : champions (if g.dealer.busted then 0 else g.dealer.points)
              g'.players with _ | ⟨d1, ds1⟩
          · rw [hch2] at hlen'
            simp at hlen'
          · have hds1 : ds1 ≠ [] := by
              rw [hch2] at hlen'
              simp only [List.length_cons] at hlen'
              intro hc
              rw [hc] at hlen'
              simp at hlen'
            rw [(hmany c (c2 :: cs2) (by intro hc; cases hc) hch).2,
              (hmany' d1 ds1 hds1 hch2).2]
            rw [← hch, ← hch2]
            exact hchperm

/-- Witness for `calculate_results_spec` at the reachable game `exGame`
(compared with itself under the identity permutation). -/
theorem calculate_results_spec_witness :
    exGame.players.Perm exGame.players ∧
    exGame.dealer = exGame.dealer ∧
    exGame.calculate_results.highest_score
      = maxWonPts (if exGame.dealer.busted then 0 else exGame.dealer.points)
          exGame.players ∧
    (champions (if exGame.dealer.busted then 0 else exGame.dealer.points)
        exGame.players = [] →
      exGame.calculate_results.winner = none ∧
      exGame.calculate_results.tied_players = []) :=
  ⟨List.Perm.refl _, rfl,
   (calculate_results_spec exGame exGame (List.Perm.refl _) rfl).2.2.1,
   (calculate_results_spec exGame exGame (List.Perm.refl _) rfl).2.2.2.1.1⟩

/-- Counterexample to C5 as stated: in the reachable game `exGame`
(fresh game, player and dealer both at 0 points, dealer score 0) the
unique player `a@x` has outcome `Won` with points 0, so `a@x` is the
unique Won player attaining `highest_score = 0`; the claim then requires
`winner = Some "a@x"`, but `calculate_results` returns `winner = none`
(and empty `tied_players`). -/
theorem calculate_results_cex :
    Reachable exGame ∧
    (alookup "a@x" exGame.calculate_results.player_results).map PlayerResult.outcome
      = some PlayerOutcome.Won ∧
    (alookup "a@x" exGame.calculate_results.player_results).map PlayerResult.points
      = some 0 ∧
    (wonPlayers (if exGame.dealer.busted then 0 else exGame.dealer.points)
        exGame.players).map Prod.fst = ["a@x"] ∧
    exGame.calculate_results.highest_score = 0 ∧
    exGame.calculate_results.winner = none ∧
    exGame.calculate_results.tied_players = [] :=
  ⟨reachable_exGame, by decide, by decide, by decide, by decide, by decide, by decide⟩

/-! ## Claim C6: terminal immutability -/

/-- C6 (amended): on a finished game, `draw_card`, `stand`,
`set_ace_value`, `add_player`, `close_enrollment`, `play_dealer`, the
engine and service `finish_game`, and service enrollment all leave
`players`, `dealer`, `available_cards` and `turn_order` unchanged; the
service `kick_player` also does so whenever enrollment is closed — but
it does not itself check `finished`, so on a finished game whose
enrollment was never closed it can still mutate `players` and
`turn_order` (see the counterexample). -/
theorem finished_game_immutable (g : Game) (email : String) (i : Nat) (rand : List Nat)
    (user_id : Nat) (now : Int) (card_id : Nat) (b : Bool) (kicker_id target_id : Nat)
    (hfin : g.finished = true) :
    sameCore (g.draw_card email i rand).1 g ∧
    sameCore (g.stand email rand).1 g ∧
    sameCore (g.set_ace_value email card_id b).1 g ∧
    sameCore (g.add_player email).1 g ∧
    sameCore g.close_enrollment.1 g ∧
    sameCore (g.play_dealer rand).1 g ∧
    sameCore g.finish_game g ∧
    sameCore (svcFinish g user_id).1 g ∧
    sameCore (svcEnroll g user_id email now).1 g ∧
    (g.enrollment_closed = true → sameCore (svcKick g kicker_id target_id).1 g) := by
  have hadd : g.add_player email = (g, Except.error
      (if g.active = false then GameError.GameNotActive
       else GameError.GameAlreadyFinished)) := by
    by_cases hact : g.active = false
    · simp [Game.add_player, hact]
    · have hact' : g.active = true := by
        cases h : g.active
        · exact absurd h hact
        · rfl
      simp [Game.add_player, hact', hfin]
  refine ⟨?_, ?_, ?_, ?_, ?_, ?_, ?_, ?_, ?_, ?_⟩
  · simp [Game.draw_card, hfin, sameCore]
  · simp [Game.stand, hfin, sameCore]
  · simp [Game.set_ace_value, hfin, sameCore]
  · rw [hadd]
    exact ⟨rfl, rfl, rfl, rfl⟩
  · simp [Game.close_enrollment, hfin, sameCore]
  · simp [Game.play_dealer, hfin, sameCore]
  · exact ⟨rfl, rfl, rfl, rfl⟩
  · unfold svcFinish
    by_cases hperm : g.can_user_perform user_id GamePermission.FinishGame = false
    · simp [hperm, sameCore]
    · simp only [hperm, Bool.false_eq_true, if_false]
      simp at hperm
      simp [hperm, sameCore, Game.finish_game]
  · unfold svcEnroll
    by_cases hopen : g.is_enrollment_open now = false
    · simp [hopen, sameCore]
    · simp at hopen
      by_cases hcan : g.can_enroll now = false
      · simp [hopen, hcan, sameCore]
      · simp at hcan
        simp only [hopen, hcan, Bool.true_eq_false, if_false]
        rw [hadd]
        exact ⟨rfl, rfl, rfl, rfl⟩
  · intro hclosed
    unfold svcKick
    by_cases hperm : g.can_user_perform kicker_id GamePermission.KickPlayers = false
    · simp [hperm, sameCore]
    · simp at hperm
      by_cases hcr : g.is_creator target_id
      · simp [hperm, hcr, sameCore]
      · simp at hcr
        simp [hperm, hcr, hclosed, sameCore]

/-- Witness for `finished_game_immutable` at the reachable finished game
`exTwoFin`. -/
theorem finished_game_immutable_witness :
    exTwoFin.finished = true ∧
    (sameCore (exTwoFin.draw_card "b@x" 0 []).1 exTwoFin ∧
     sameCore (exTwoFin.stand "b@x" []).1 exTwoFin ∧
     sameCore (exTwoFin.set_ace_value "b@x" 0 true).1 exTwoFin ∧
     sameCore (exTwoFin.add_player "c@x").1 exTwoFin ∧
     sameCore exTwoFin.close_enrollment.1 exTwoFin ∧
     sameCore (exTwoFin.play_dealer []).1 exTwoFin ∧
     sameCore exTwoFin.finish_game exTwoFin ∧
     sameCore (svcFinish exTwoFin 0).1 exTwoFin ∧
     sameCore (svcEnroll exTwoFin 2 "c@x" 0).1 exTwoFin ∧
     (exTwoFin.enrollment_closed = true →
       sameCore (svcKick exTwoFin 0 1).1 exTwoFin)) :=
  ⟨by decide, finished_game_immutable exTwoFin "b@x" 0 [] 2 0 0 true 0 1 (by decide)⟩

/-- Counterexample to C6 as stated: `exTwoFin` is a reachable finished
game (creator finished it manually before closing enrollment) holding
player `b@x`; the service-level `kick_player` nevertheless succeeds and
removes `b@x` from `players` and `turn_order`. -/
theorem finished_game_immutable_cex :
    Reachable exTwoFin ∧
    exTwoFin.finished = true ∧
    (alookup "b@x" exTwoFin.players).isSome = true ∧
    "b@x" ∈ exTwoFin.turn_order ∧
    (svcKick exTwoFin 0 1).2 = Except.ok "b@x" ∧
    (svcKick exTwoFin 0 1).1 = exTwoKick ∧
    alookup "b@x" exTwoKick.players = none ∧
    "b@x" ∉ exTwoKick.turn_order :=
  ⟨reachable_exTwoFin, by decide, by decide, by decide, by decide, by decide,
   by decide, by decide⟩

/-- Witness for `rate_limit_check`: the fourth call for key `u` at state
`rl3` (bucket `[0,1,2]`, sorted) is rejected and the pruned bucket kept. -/
theorem rate_limit_check_witness :
    ((alookup "u" rl3).getD []).Pairwise (· ≤ ·) ∧
    (3 ≤ (specPrune 3 ((alookup "u" rl3).getD [])).length →
      (checkRateLimit rl3 3 "u" 3).2 = Except.error ApiError.RateLimitExceeded ∧
      alookup "u" (checkRateLimit rl3 3 "u" 3).1
        = some (specPrune 3 ((alookup "u" rl3).getD []))) :=
  ⟨by decide, (rate_limit_check 3 "u" 3 (by decide)).1⟩

/-! ## Helper lemmas for the state invariant -/

theorem mem_ainsert {κ α : Type} [DecidableEq κ] {k : κ} {v : α} {l : List (κ × α)}
    {kv : κ × α} (h : kv ∈ ainsert k v l) : kv.2 = v ∨ kv ∈ l := by
  unfold ainsert at h
  by_cases hs : (alookup k l).isSome
  · rw [if_pos hs] at h
    obtain ⟨kv₀, hmem, heq⟩ := List.mem_map.mp h
    by_cases hk : kv₀.1 = k
    · left
      rw [← heq, if_pos hk]
    · right
      rw [← heq, if_neg hk]
      exact hmem
  · rw [if_neg hs] at h
    rcases List.mem_append.mp h with h1 | h1
    · exact Or.inr h1
    · left
      rw [List.mem_singleton.mp h1]

theorem aupdate_id_of_not_mem {κ α : Type} [DecidableEq κ] {k : κ} (f : α → α)
    {l : List (κ × α)} (h : k ∉ l.map Prod.fst) : aupdate k f l = l := by
  induction l with
  | nil => rfl
  | cons kv rest ih =>
    simp only [List.map_cons, List.mem_cons] at h
    push_neg at h
    rw [aupdate_cons, if_neg (fun hh => h.1 hh.symm), ih h.2]

theorem alookup_filter_of_key {κ α : Type} [DecidableEq κ] (k : κ) (p : κ → Bool)
    (l : List (κ × α)) :
    alookup k (l.filter fun kv => p kv.1)
      = if p k then alookup k l else none := by
  induction l with
  | nil => simp [alookup_nil]
  | cons kv rest ih =>
    rw [List.filter_cons]
    by_cases hk : kv.1 = k
    · subst hk
      by_cases hp : p kv.1 <;> simp [hp, alookup_cons, ih]
    · by_cases hp : p kv.1 <;> simp [hp, alookup_cons, hk, ih]

theorem baseSum_eraseIdx (deck : List Card) (i : Nat) (dflt : Card)
    (h : i < deck.length) :
    baseSum (deck.eraseIdx i) + (deck.getD i dflt).value = baseSum deck := by
  induction deck generalizing i with
  | nil => cases h
  | cons c rest ih =>
    cases i with
    | zero => simp [baseSum, Nat.add_comm]
    | succ j =>
      have hj : j < rest.length := by
        simpa using Nat.lt_of_succ_lt_succ h
      have := ih j hj
      simp only [List.eraseIdx_cons_succ, List.getD_cons_succ, baseSum,
        List.map_cons, List.sum_cons] at this ⊢
      omega

theorem getD_mem_of_lt {α : Type} {l : List α} {i : Nat} (h : i < l.length) (dflt : α) :
    l.getD i dflt ∈ l := by
  rw [List.getD_eq_getElem?_getD, List.getElem?_eq_getElem h]
  exact List.getElem_mem h

theorem sumBase_aupdate_eq {f : Player → Player}
    (hf : ∀ q, baseSum (f q).cards_history = baseSum q.cards_history)
    (k : String) (l : List (String × Player)) :
    ((aupdate k f l).map fun ep => baseSum ep.2.cards_history).sum
      = (l.map fun ep => baseSum ep.2.cards_history).sum := by
  induction l with
  | nil => rfl
  | cons kv rest ih =>
    rw [aupdate_cons]
    by_cases hk : kv.1 = k <;> simp [hk, ih, hf]

theorem sumBase_aupdate_nodup (k : String) (f : Player → Player)
    {l : List (String × Player)} (hnd : (l.map Prod.fst).Nodup)
    {p : Player} (hp : alookup k l = some p) :
    ((aupdate k f l).map fun ep => baseSum ep.2.cards_history).sum
        + baseSum p.cards_history
      = (l.map fun ep => baseSum ep.2.cards_history).sum
        + baseSum (f p).cards_history := by
  induction l with
  | nil => cases hp
  | cons kv rest ih =>
    rw [aupdate_cons]
    by_cases hk : kv.1 = k
    · rw [alookup_cons, if_pos hk] at hp
      have hp' : kv.2 = p := Option.some.inj hp
      have hnotin : k ∉ rest.map Prod.fst := by
        have h1 := (List.nodup_cons.mp hnd).1
        rw [hk] at h1
        exact h1
      rw [if_pos hk, aupdate_id_of_not_mem f hnotin]
      simp only [List.map_cons, List.sum_cons, hp']
      omega
    · rw [alookup_cons, if_neg hk] at hp
      rw [if_neg hk]
      have := ih (List.nodup_cons.mp hnd).2 hp
      simp only [List.map_cons, List.sum_cons]
      omega

theorem sumBase_le_of_bounds {l : List (String × Player)}
    (h : ∀ ep ∈ l, baseSum ep.2.cards_history ≤ 31) :
    (l.map fun ep => baseSum ep.2.cards_history).sum ≤ 31 * l.length := by
  induction l with
  | nil => simp
  | cons kv rest ih =>
    simp only [List.map_cons, List.sum_cons, List.length_cons]
    have h1 := h kv (List.mem_cons_self _ _)
    have h2 := ih fun ep hep => h ep (List.mem_cons_of_mem _ hep)
    calc baseSum kv.2.cards_history
          + (rest.map fun ep => baseSum ep.2.cards_history).sum
        ≤ 31 + 31 * rest.length := Nat.add_le_add h1 h2
      _ = 31 * (rest.length + 1) := by ring

theorem elevenAceCount_all_false {aces : List (Nat × Bool)}
    (h : ∀ kv ∈ aces, kv.2 = false) (cards : List Card) :
    elevenAceCount aces cards = 0 := by
  unfold elevenAceCount
  rw [List.countP_eq_zero]
  intro c hc
  simp only [decide_eq_true_eq, not_and]
  intro _ hlk
  have := h _ (alookup_mem hlk)
  simp at this

theorem bustCoupled_recalculate (p : Player) : bustCoupled p.recalculate_points := by
  constructor
  · simp [Player.recalculate_points]
  · intro hb
    simp only [Player.recalculate_points] at hb ⊢
    rw [if_pos (of_decide_eq_true hb)]

theorem bustCoupled_add_card (p : Player) (c : Card) : bustCoupled (p.add_card c) := by
  unfold Player.add_card
  exact bustCoupled_recalculate _

theorem add_card_aces_false {p : Player} (h : ∀ kv ∈ p.ace_values, kv.2 = false)
    (c : Card) : ∀ kv ∈ (p.add_card c).ace_values, kv.2 = false := by
  intro kv hkv
  rw [(add_card_fields p c).2.1] at hkv
  by_cases hA : c.name = "A"
  · rw [if_pos hA] at hkv
    rcases mem_ainsert hkv with h1 | h1
    · exact h1
    · exact h _ h1
  · rw [if_neg hA] at hkv
    exact h _ hkv

theorem add_card_base (p : Player) (c : Card) :
    baseSum (p.add_card c).cards_history = baseSum p.cards_history + c.value := by
  rw [(add_card_fields p c).1]
  simp [baseSum]

theorem recalculate_state_cases (q : Player) :
    q.recalculate_points.state = PlayerState.Busted →
    q.recalculate_points.busted = true ∨ q.state = PlayerState.Busted := by
  simp only [Player.recalculate_points]
  intro hst
  by_cases h21 : 21 < handPoints q.ace_values q.cards_history
  · left
    simp [h21]
  · right
    rw [if_neg h21] at hst
    exact hst

theorem add_card_state_cases (p : Player) (c : Card) :
    (p.add_card c).state = PlayerState.Busted →
    (p.add_card c).busted = true ∨ p.state = PlayerState.Busted := by
  unfold Player.add_card
  intro hst
  rcases recalculate_state_cases _ hst with h | h
  · exact Or.inl h
  · right
    by_cases hA : c.name = "A" <;> simp [hA] at h <;> exact h

theorem dealerLoop_inv_aux (n : Nat) : ∀ (d : Player) (deck : List Card) (r : List Nat),
    deck.length ≤ n →
    pointsFormula d →
    (∀ kv ∈ d.ace_values, kv.2 = false) →
    bustCoupled d →
    (d.state = PlayerState.Busted → d.busted = true) →
    (∀ c ∈ deck, 1 ≤ c.value ∧ c.value ≤ 10) →
    baseSum d.cards_history ≤ 26 →
    pointsFormula (dealerLoop d deck r).1 ∧
    (∀ kv ∈ (dealerLoop d deck r).1.ace_values, kv.2 = false) ∧
    bustCoupled (dealerLoop d deck r).1 ∧
    ((dealerLoop d deck r).1.state = PlayerState.Busted →
      (dealerLoop d deck r).1.busted = true) ∧
    (∀ c ∈ (dealerLoop d deck r).2.1, 1 ≤ c.value ∧ c.value ≤ 10) ∧
    baseSum (dealerLoop d deck r).2.1 + baseSum (dealerLoop d deck r).1.cards_history
      = baseSum deck + baseSum d.cards_history ∧
    baseSum (dealerLoop d deck r).1.cards_history ≤ 26 := by
  induction n with
  | zero =>
    intro d deck r hlen hf ha hb hsb hdv hble
    have hdeck : deck = [] := List.length_eq_zero.mp (Nat.le_zero.mp hlen)
    subst hdeck
    by_cases hcond : d.points < 17 ∧ d.busted = false
    · rw [dealerLoop_empty hcond]
      exact ⟨hf, ha, hb, hsb, hdv, rfl, hble⟩
    · rw [dealerLoop_stop hcond]
      exact ⟨hf, ha, hb, hsb, hdv, rfl, hble⟩
  | succ n ihn =>
    intro d deck r hlen hf ha hb hsb hdv hble
    by_cases hcond : d.points < 17 ∧ d.busted = false
    · cases deck with
      | nil =>
        rw [dealerLoop_empty hcond]
        exact ⟨hf, ha, hb, hsb, hdv, rfl, hble⟩
      | cons c rest =>
        rw [dealerLoop_draw hcond]
        have hidx : r.headD 0 % (c :: rest).length < (c :: rest).length :=
          Nat.mod_lt _ (by simp)
        have hcmem : (c :: rest).getD (r.headD 0 % (c :: rest).length) c ∈ c :: rest :=
          getD_mem_of_lt hidx c
        have hcval := hdv _ hcmem
        have hcount : elevenAceCount d.ace_values d.cards_history = 0 :=
          elevenAceCount_all_false ha d.cards_history
        have hdpts : d.points = baseSum d.cards_history := by
          have h1 := hf
          unfold pointsFormula at h1
          rw [hcount] at h1
          omega
        have hlen' : ((c :: rest).eraseIdx (r.headD 0 % (c :: rest).length)).length ≤ n := by
          rw [List.length_eraseIdx, if_pos hidx]
          simp only [List.length_cons] at hlen ⊢
          omega
        have hbase' :
            baseSum ((d.add_card
                ((c :: rest).getD (r.headD 0 % (c :: rest).length) c)).cards_history)
              = baseSum d.cards_history
                + ((c :: rest).getD (r.headD 0 % (c :: rest).length) c).value :=
          add_card_base d _
        have hble' :
            baseSum ((d.add_card
                ((c :: rest).getD (r.headD 0 % (c :: rest).length) c)).cards_history)
              ≤ 26 := by
          rw [hbase']
          omega
        have herase :=
          baseSum_eraseIdx (c :: rest) (r.headD 0 % (c :: rest).length) c hidx
        obtain ⟨ih1, ih2, ih3, ih4, ih5, ih6, ih7⟩ :=
          ihn (d.add_card ((c :: rest).getD (r.headD 0 % (c :: rest).length) c))
            ((c :: rest).eraseIdx (r.headD 0 % (c :: rest).length)) r.tail hlen'
            (pointsFormula_add_card d _)
            (add_card_aces_false ha _)
            (bustCoupled_add_card d _)
            (fun hst => by
              rcases add_card_state_cases d _ hst with h | h
              · exact h
              · rw [hsb h] at hcond
                exact absurd hcond.2 (by simp))
            (fun c' hc' => hdv c' ((List.eraseIdx_sublist _ _).subset hc'))
            hble'
        refine ⟨ih1, ih2, ih3, ih4, ih5, ?_, ih7⟩
        rw [ih6, hbase']
        omega
    · rw [dealerLoop_stop hcond]
      exact ⟨hf, ha, hb, hsb, hdv, rfl, hble⟩

theorem dealerLoop_inv (d : Player) (deck : List Card) (r : List Nat)
    (hf : pointsFormula d) (ha : ∀ kv ∈ d.ace_values, kv.2 = false)
    (hb : bustCoupled d) (hsb : d.state = PlayerState.Busted → d.busted = true)
    (hdv : ∀ c ∈ deck, 1 ≤ c.value ∧ c.value ≤ 10)
    (hble : baseSum d.cards_history ≤ 26) :
    pointsFormula (dealerLoop d deck r).1 ∧
    (∀ kv ∈ (dealerLoop d deck r).1.ace_values, kv.2 = false) ∧
    bustCoupled (dealerLoop d deck r).1 ∧
    ((dealerLoop d deck r).1.state = PlayerState.Busted →
      (dealerLoop d deck r).1.busted = true) ∧
    (∀ c ∈ (dealerLoop d deck r).2.1, 1 ≤ c.value ∧ c.value ≤ 10) ∧
    baseSum (dealerLoop d deck r).2.1 + baseSum (dealerLoop d deck r).1.cards_history
      = baseSum deck + baseSum d.cards_history ∧
    baseSum (dealerLoop d deck r).1.cards_history ≤ 26 :=
  dealerLoop_inv_aux deck.length d deck r (Nat.le_refl _) hf ha hb hsb hdv hble

theorem play_dealer_inv {g : Game} (hInv : Inv g) (rand : List Nat) :
    Inv (g.play_dealer rand).1 := by
  unfold Game.play_dealer
  cases hfin : g.finished with
  | true => simpa [hfin] using hInv
  | false =>
    obtain ⟨l1, l2, l3, l4, l5, l6, l7⟩ :=
      dealerLoop_inv g.dealer g.available_cards rand hInv.formula_dealer
        hInv.dealer_aces_false hInv.bust_dealer hInv.dealer_state_bust
        hInv.deck_vals hInv.base_dealer_le
    rcases hdl : dealerLoop g.dealer g.available_cards rand with ⟨d', deck', err⟩
    rw [hdl] at l1 l2 l3 l4 l5 l6 l7
    simp only at l1 l2 l3 l4 l5 l6 l7
    have hcons : baseSum deck' + playersBase g + baseSum d'.cards_history = 340 := by
      have hc := hInv.conserve
      omega
    simp only [Bool.false_eq_true, if_false, hdl]
    cases err with
    | some e =>
      simp only
      refine ⟨hInv.players_le, hInv.keys_nodup, hInv.formula, l1, hInv.bust, l3, l5,
        ?_, hInv.base_le, l7, hInv.open_hands, l2, l4⟩
      show baseSum deck' + playersBase { g with dealer := d', available_cards := deck' }
          + baseSum d'.cards_history = 340
      simp only [playersBase]
      simpa [playersBase] using hcons
    | none =>
      simp only
      by_cases hbf : d'.busted = false
      · rw [if_pos hbf]
        refine ⟨hInv.players_le, hInv.keys_nodup, hInv.formula, l1, hInv.bust,
          ⟨l3.1, ?_⟩, l5, ?_, hInv.base_le, l7, hInv.open_hands, l2, ?_⟩
        · intro hbt
          have h2 : d'.busted = true := hbt
          rw [hbf] at h2
          cases h2
        · show baseSum deck'
              + playersBase { g with
                  dealer := { d' with state := PlayerState.Standing },
                  available_cards := deck' }
              + baseSum d'.cards_history = 340
          simpa [playersBase] using hcons
        · intro hst
          have h2 : PlayerState.Standing = PlayerState.Busted := hst
          cases h2
      · rw [if_neg hbf]
        refine ⟨hInv.players_le, hInv.keys_nodup, hInv.formula, l1, hInv.bust, l3, l5,
          ?_, hInv.base_le, l7, hInv.open_hands, l2, l4⟩
        show baseSum deck' + playersBase { g with dealer := d', available_cards := deck' }
            + baseSum d'.cards_history = 340
        simpa [playersBase] using hcons

theorem pointsFormula_new (e : String) : pointsFormula (Player.new e) := by
  simp [pointsFormula, Player.new, baseSum, elevenAceCount]

theorem bustCoupled_new (e : String) : bustCoupled (Player.new e) := by
  constructor
  · simp [Player.new]
  · intro h
    simp [Player.new] at h

theorem playersBase_congr {g g' : Game} (hp : g'.players = g.players) :
    playersBase g' = playersBase g := by
  unfold playersBase
  rw [hp]

theorem inv_congr {g g' : Game} (hp : g'.players = g.players) (hd : g'.dealer = g.dealer)
    (ha : g'.available_cards = g.available_cards)
    (he : g'.enrollment_closed = true ∨ g'.enrollment_closed = g.enrollment_closed)
    (hInv : Inv g) : Inv g' := by
  refine ⟨?_, ?_, ?_, ?_, ?_, ?_, ?_, ?_, ?_, ?_, ?_, ?_, ?_⟩
  · rw [hp]
    exact hInv.players_le
  · rw [hp]
    exact hInv.keys_nodup
  · rw [hp]
    exact hInv.formula
  · rw [hd]
    exact hInv.formula_dealer
  · rw [hp]
    exact hInv.bust
  · rw [hd]
    exact hInv.bust_dealer
  · rw [ha]
    exact hInv.deck_vals
  · rw [ha, hd, playersBase_congr hp]
    exact hInv.conserve
  · rw [hp]
    exact hInv.base_le
  · rw [hd]
    exact hInv.base_dealer_le
  · intro hop
    rcases he with he | he
    · rw [he] at hop
      cases hop
    · rw [he] at hop
      rw [hp]
      exact hInv.open_hands hop
  · rw [hd]
    exact hInv.dealer_aces_false
  · rw [hd]
    exact hInv.dealer_state_bust

theorem inv_new {creator_id : Nat} {email : String} {timeout : Nat} {start : Int}
    {g : Game} (h : Game.new creator_id email timeout start = Except.ok g) : Inv g := by
  unfold Game.new at h
  by_cases hb : isBlank email
  · rw [if_pos hb] at h
    cases h
  · rw [if_neg hb] at h
    have hg := (Except.ok.inj h).symm
    subst hg
    refine ⟨?_, ?_, ?_, ?_, ?_, ?_, ?_, ?_, ?_, ?_, ?_, ?_, ?_⟩
    · simp
    · simp
    · intro ep hep
      rw [List.mem_singleton.mp hep]
      exact pointsFormula_new email
    · exact pointsFormula_new "dealer"
    · intro ep hep
      rw [List.mem_singleton.mp hep]
      exact bustCoupled_new email
    · exact bustCoupled_new "dealer"
    · show ∀ c ∈ initialDeck, 1 ≤ c.value ∧ c.value ≤ 10
      decide
    · have hdeck : baseSum initialDeck = 340 := by decide
      simp [playersBase, Player.new, baseSum] at hdeck ⊢
      exact hdeck
    · intro ep hep
      rw [List.mem_singleton.mp hep]
      simp [Player.new, baseSum]
    · simp [Player.new, baseSum]
    · intro _ ep hep
      rw [List.mem_singleton.mp hep]
      exact rfl
    · intro kv hkv
      simp [Player.new] at hkv
    · intro hst
      simp [Player.new] at hst

theorem advance_turn_fields (g : Game) :
    g.advance_turn.players = g.players ∧ g.advance_turn.dealer = g.dealer ∧
    g.advance_turn.available_cards = g.available_cards ∧
    g.advance_turn.finished = g.finished ∧
    g.advance_turn.enrollment_closed = g.enrollment_closed ∧
    g.advance_turn.turn_order = g.turn_order := by
  unfold Game.advance_turn
  by_cases h : g.turn_order = [] <;> simp [h]

theorem advance_turn_inv {g : Game} (hInv : Inv g) : Inv g.advance_turn :=
  inv_congr (advance_turn_fields g).1 (advance_turn_fields g).2.1
    (advance_turn_fields g).2.2.1 (Or.inr (advance_turn_fields g).2.2.2.2.1) hInv

theorem finish_game_inv {g : Game} (hInv : Inv g) : Inv g.finish_game :=
  @inv_congr g g.finish_game rfl rfl rfl (Or.inr rfl) hInv

theorem close_enrollment_inv {g : Game} (hInv : Inv g) : Inv g.close_enrollment.1 := by
  unfold Game.close_enrollment
  by_cases hfin : g.finished
  · simp only [hfin, if_true]
    exact hInv
  · rw [if_neg (by simp [hfin])]
    exact @inv_congr g { g with enrollment_closed := true, current_turn_index := 0 }
      rfl rfl rfl (Or.inl rfl) hInv

theorem autoFinish_inv {g : Game} (hInv : Inv g) (rand : List Nat) :
    Inv (autoFinish g rand).1 := by
  unfold autoFinish
  by_cases hc : g.check_auto_finish
  · rw [if_pos hc]
    have h2 := play_dealer_inv hInv rand
    rcases hpd : g.play_dealer rand with ⟨g3, err⟩
    rw [hpd] at h2
    simp only at h2
    cases err with
    | none =>
      simp only
      exact @inv_congr g3 { g3 with finished := true } rfl rfl rfl (Or.inr rfl) h2
    | some e =>
      simpa using h2
  · rw [if_neg hc]
    exact hInv

theorem add_player_inv {g : Game} (hInv : Inv g) (email : String) :
    Inv (g.add_player email).1 := by
  unfold Game.add_player
  by_cases h1 : g.active = false
  · rw [if_pos h1]
    exact hInv
  · rw [if_neg h1]
    by_cases h2 : g.finished
    · rw [if_pos h2]
      exact hInv
    · rw [if_neg h2]
      by_cases h3 : g.enrollment_closed
      · rw [if_pos h3]
        exact hInv
      · rw [if_neg h3]
        by_cases h4 : isBlank email
        · rw [if_pos h4]
          exact hInv
        · rw [if_neg h4]
          by_cases h5 : (alookup email g.players).isSome
          · rw [if_pos h5]
            exact hInv
          · rw [if_neg h5]
            by_cases h6 : 10 ≤ g.players.length
            · rw [if_pos h6]
              exact hInv
            · rw [if_neg h6]
              have habs : email ∉ g.players.map Prod.fst :=
                alookup_eq_none.mp (Option.not_isSome_iff_eq_none.mp h5)
              refine ⟨?_, ?_, ?_, hInv.formula_dealer, ?_, hInv.bust_dealer,
                hInv.deck_vals, ?_, ?_, hInv.base_dealer_le, ?_,
                hInv.dealer_aces_false, hInv.dealer_state_bust⟩
              · show (g.players ++ [(email, Player.new email)]).length ≤ 10
                rw [List.length_append]
                simp only [List.length_singleton]
                omega
              · show ((g.players ++ [(email, Player.new email)]).map Prod.fst).Nodup
                rw [List.map_append]
                simp only [List.map_cons, List.map_nil]
                rw [List.nodup_append]
                refine ⟨hInv.keys_nodup, List.nodup_singleton email, ?_⟩
                intro a ha hmem
                rw [List.mem_singleton.mp hmem] at ha
                exact habs ha
              · intro ep hep
                rcases List.mem_append.mp hep with hmem | hmem
                · exact hInv.formula ep hmem
                · rw [List.mem_singleton.mp hmem]
                  exact pointsFormula_new email
              · intro ep hep
                rcases List.mem_append.mp hep with hmem | hmem
                · exact hInv.bust ep hmem
                · rw [List.mem_singleton.mp hmem]
                  exact bustCoupled_new email
              · show baseSum g.available_cards
                    + playersBase { g with
                        players := g.players ++ [(email, Player.new email)],
                        turn_order := g.turn_order ++ [email] }
                    + baseSum g.dealer.cards_history = 340
                have hc := hInv.conserve
                simp only [playersBase, List.map_append, List.sum_append,
                  List.map_cons, List.map_nil, List.sum_cons, List.sum_nil] at hc ⊢
                have h0 : baseSum (Player.new email).cards_history = 0 := rfl
                omega
              · intro ep hep
                rcases List.mem_append.mp hep with hmem | hmem
                · exact hInv.base_le ep hmem
                · rw [List.mem_singleton.mp hmem]
                  simp [Player.new, baseSum]
              · intro hop ep hep
                rcases List.mem_append.mp hep with hmem | hmem
                · exact hInv.open_hands hop ep hmem
                · rw [List.mem_singleton.mp hmem]
                  exact rfl

theorem set_ace_value_inv {g : Game} (hInv : Inv g) (email : String) (cid : Nat)
    (b : Bool) : Inv (g.set_ace_value email cid b).1 := by
  unfold Game.set_ace_value
  by_cases hfin : g.finished
  · rw [if_pos hfin]
    exact hInv
  · rw [if_neg hfin]
    cases hlk : alookup email g.players with
    | none =>
      simp only [hlk]
      exact hInv
    | some p =>
      simp only [hlk]
      cases hfind : p.cards_history.find? (fun c => c.id == cid) with
      | none =>
        simp only
        exact hInv
      | some card =>
        simp only
        by_cases hA : card.name ≠ "A"
        · rw [if_pos hA]
          exact hInv
        · rw [if_neg hA]
          show Inv { g with players := (aupdate email
            (fun q => Player.recalculate_points
              { q with ace_values := ainsert cid b q.ace_values }) g.players) }
          set f : Player → Player := fun q => Player.recalculate_points
            { q with ace_values := ainsert cid b q.ace_values } with hfdef
          have hcards : ∀ q : Player, (f q).cards_history = q.cards_history := by
            intro q
            rw [hfdef]
            exact (recalculate_points_spec _).2.1
          have hbase : ∀ q : Player,
              baseSum (f q).cards_history = baseSum q.cards_history := by
            intro q
            rw [hcards q]
          refine ⟨?_, ?_, ?_, hInv.formula_dealer, ?_, hInv.bust_dealer,
            hInv.deck_vals, ?_, ?_, hInv.base_dealer_le, ?_,
            hInv.dealer_aces_false, hInv.dealer_state_bust⟩
          · show (aupdate email f g.players).length ≤ 10
            simp only [aupdate, List.length_map]
            exact hInv.players_le
          · show ((aupdate email f g.players).map Prod.fst).Nodup
            rw [aupdate_map_fst]
            exact hInv.keys_nodup
          · intro ep hep
            rcases mem_aupdate hep with hmem | ⟨kv₀, hkv₀, _, hkv⟩
            · exact hInv.formula ep hmem
            · rw [hkv, hfdef]
              exact pointsFormula_recalculate _
          · intro ep hep
            rcases mem_aupdate hep with hmem | ⟨kv₀, hkv₀, _, hkv⟩
            · exact hInv.bust ep hmem
            · rw [hkv, hfdef]
              exact bustCoupled_recalculate _
          · show baseSum g.available_cards
                + playersBase { g with players := aupdate email f g.players }
                + baseSum g.dealer.cards_history = 340
            have hc := hInv.conserve
            simp only [playersBase] at hc ⊢
            rw [sumBase_aupdate_eq hbase]
            exact hc
          · intro ep hep
            rcases mem_aupdate hep with hmem | ⟨kv₀, hkv₀, _, hkv⟩
            · exact hInv.base_le ep hmem
            · rw [hkv]
              show baseSum (f kv₀.2).cards_history ≤ 31
              rw [hbase kv₀.2]
              exact hInv.base_le kv₀ hkv₀
          · intro hop ep hep
            rcases mem_aupdate hep with hmem | ⟨kv₀, hkv₀, _, hkv⟩
            · exact hInv.open_hands hop ep hmem
            · rw [hkv]
              show (f kv₀.2).cards_history = []
              rw [hcards kv₀.2]
              exact hInv.open_hands hop kv₀ hkv₀

theorem drawAt_spec (deck : List Card) (i : Nat) (h : deck ≠ []) :
    (drawAt deck i).1 ∈ deck ∧
    baseSum (drawAt deck i).2 + (drawAt deck i).1.value = baseSum deck ∧
    ∀ c ∈ (drawAt deck i).2, c ∈ deck := by
  cases deck with
  | nil => exact absurd rfl h
  | cons c rest =>
    have hidx : i % (c :: rest).length < (c :: rest).length := Nat.mod_lt _ (by simp)
    refine ⟨getD_mem_of_lt hidx c, baseSum_eraseIdx _ _ _ hidx,
      fun c' hc' => (List.eraseIdx_sublist _ _).subset hc'⟩

theorem stand_inv {g : Game} (hInv : Inv g) (email : String) (rand : List Nat) :
    Inv (g.stand email rand).1 := by
  unfold Game.stand
  by_cases h1 : g.finished
  · rw [if_pos h1]
    exact hInv
  · rw [if_neg h1]
    by_cases h2 : g.enrollment_closed = false
    · rw [if_pos h2]
      exact hInv
    · rw [if_neg h2]
      by_cases h3 : g.can_player_act email = false
      · rw [if_pos h3]
        exact hInv
      · rw [if_neg h3]
        cases hlk : alookup email g.players with
        | none =>
          simp only [hlk]
          exact hInv
        | some p =>
          simp only [hlk]
          by_cases h4 : p.state ≠ PlayerState.Active
          · rw [if_pos h4]
            exact hInv
          · rw [if_neg h4]
            push_neg at h4
            have hg1 : Inv { g with players := (aupdate email
                (fun q => { q with state := PlayerState.Standing }) g.players) } := by
              set f : Player → Player :=
                fun q => { q with state := PlayerState.Standing } with hfdef
              refine ⟨?_, ?_, ?_, hInv.formula_dealer, ?_, hInv.bust_dealer,
                hInv.deck_vals, ?_, ?_, hInv.base_dealer_le, ?_,
                hInv.dealer_aces_false, hInv.dealer_state_bust⟩
              · show (aupdate email f g.players).length ≤ 10
                simp only [aupdate, List.length_map]
                exact hInv.players_le
              · show ((aupdate email f g.players).map Prod.fst).Nodup
                rw [aupdate_map_fst]
                exact hInv.keys_nodup
              · intro ep hep
                rcases mem_aupdate hep with hmem | ⟨kv₀, hkv₀, _, hkv⟩
                · exact hInv.formula ep hmem
                · rw [hkv, hfdef]
                  exact hInv.formula kv₀ hkv₀
              · intro ep hep
                rcases mem_aupdate_nodup hInv.keys_nodup hep with
                  ⟨hmem, _⟩ | ⟨p₀, hp₀, hmem₀, hkv⟩
                · exact hInv.bust ep hmem
                · have hpp : p₀ = p := by
                    rw [hp₀] at hlk
                    exact Option.some.inj hlk
                  have hbc := hInv.bust (email, p₀) hmem₀
                  have hbf : p₀.busted = false := by
                    cases hv : p₀.busted
                    · rfl
                    · have hst := hbc.2 hv
                      rw [hpp, h4] at hst
                      cases hst
                  rw [hkv, hfdef]
                  constructor
                  · exact hbc.1
                  · intro hbt
                    have h5 : p₀.busted = true := hbt
                    rw [hbf] at h5
                    cases h5
              · show baseSum g.available_cards
                    + playersBase { g with players := (aupdate email f g.players) }
                    + baseSum g.dealer.cards_history = 340
                have hc := hInv.conserve
                simp only [playersBase] at hc ⊢
                rw [sumBase_aupdate_eq (fun q => by rw [hfdef])]
                exact hc
              · intro ep hep
                rcases mem_aupdate hep with hmem | ⟨kv₀, hkv₀, _, hkv⟩
                · exact hInv.base_le ep hmem
                · rw [hkv, hfdef]
                  exact hInv.base_le kv₀ hkv₀
              · intro hop ep hep
                rcases mem_aupdate hep with hmem | ⟨kv₀, hkv₀, _, hkv⟩
                · exact hInv.open_hands hop ep hmem
                · rw [hkv, hfdef]
                  exact hInv.open_hands hop kv₀ hkv₀
            have hg3 := autoFinish_inv (advance_turn_inv hg1) rand
            rcases haf : autoFinish ({ g with players := (aupdate email
                (fun q => { q with state := PlayerState.Standing })
                g.players) }).advance_turn rand with ⟨g3, err⟩
            rw [haf] at hg3
            simp only at hg3
            cases err <;> simp only [haf] <;> exact hg3

theorem draw_card_inv {g : Game} (hInv : Inv g) (email : String) (i : Nat)
    (rand : List Nat) : Inv (g.draw_card email i rand).1 := by
  unfold Game.draw_card
  by_cases h1 : g.finished
  · rw [if_pos h1]
    exact hInv
  · rw [if_neg h1]
    by_cases h2 : g.available_cards = []
    · rw [if_pos h2]
      exact hInv
    · rw [if_neg h2]
      by_cases h3 : g.enrollment_closed = false
      · rw [if_pos h3]
        exact hInv
      · rw [if_neg h3]
        by_cases h4 : g.can_player_act email = false
        · rw [if_pos h4]
          exact hInv
        · rw [if_neg h4]
          cases hlk : alookup email g.players with
          | none =>
            simp only [hlk]
            exact hInv
          | some p =>
            simp only [hlk]
            by_cases h5 : p.busted
            · rw [if_pos h5]
              exact hInv
            · rw [if_neg h5]
              by_cases h6 : p.state ≠ PlayerState.Active
              · rw [if_pos h6]
                exact hInv
              · rw [if_neg h6]
                push_neg at h6
                obtain ⟨hcmem, hcsum, hcsub⟩ := drawAt_spec g.available_cards i h2
                rcases hdr : drawAt g.available_cards i with ⟨card, deck'⟩
                rw [hdr] at hcmem hcsum hcsub
                simp only at hcmem hcsum hcsub
                have hbf : p.busted = false := by
                  cases hv : p.busted
                  · rfl
                  · exact absurd hv h5
                have hple : p.points ≤ 21 := by
                  have hd : p.busted = decide (21 < p.points) :=
                    (hInv.bust (email, p) (alookup_mem hlk)).1
                  rw [hbf] at hd
                  have h7 := of_decide_eq_false hd.symm
                  omega
                have hpbase : baseSum p.cards_history ≤ p.points := by
                  have hf := hInv.formula (email, p) (alookup_mem hlk)
                  have hf' : p.points = baseSum p.cards_history
                      + 10 * elevenAceCount p.ace_values p.cards_history := hf
                  omega
                have hcv := hInv.deck_vals card hcmem
                have hg1 : Inv { g with
                    players := (aupdate email (fun q => q.add_card card) g.players),
                    available_cards := deck' } := by
                  set f : Player → Player := fun q => q.add_card card with hfdef
                  refine ⟨?_, ?_, ?_, hInv.formula_dealer, ?_, hInv.bust_dealer,
                    ?_, ?_, ?_, hInv.base_dealer_le, ?_,
                    hInv.dealer_aces_false, hInv.dealer_state_bust⟩
                  · show (aupdate email f g.players).length ≤ 10
                    simp only [aupdate, List.length_map]
                    exact hInv.players_le
                  · show ((aupdate email f g.players).map Prod.fst).Nodup
                    rw [aupdate_map_fst]
                    exact hInv.keys_nodup
                  · intro ep hep
                    rcases mem_aupdate hep with hmem | ⟨kv₀, hkv₀, _, hkv⟩
                    · exact hInv.formula ep hmem
                    · rw [hkv, hfdef]
                      exact pointsFormula_add_card kv₀.2 card
                  · intro ep hep
                    rcases mem_aupdate hep with hmem | ⟨kv₀, hkv₀, _, hkv⟩
                    · exact hInv.bust ep hmem
                    · rw [hkv, hfdef]
                      exact bustCoupled_add_card kv₀.2 card
                  · intro c hc
                    exact hInv.deck_vals c (hcsub c hc)
                  · show baseSum deck'
                        + playersBase { g with
                            players := (aupdate email f g.players),
                            available_cards := deck' }
                        + baseSum g.dealer.cards_history = 340
                    have hc := hInv.conserve
                    have hsum := sumBase_aupdate_nodup email f hInv.keys_nodup hlk
                    have hab : baseSum (f p).cards_history
                        = baseSum p.cards_history + card.value := by
                      rw [hfdef]
                      exact add_card_base p card
                    simp only [playersBase] at hc ⊢
                    rw [hab] at hsum
                    omega
                  · intro ep hep
                    rcases mem_aupdate_nodup hInv.keys_nodup hep with
                      ⟨hmem, _⟩ | ⟨p₀, hp₀, hmem₀, hkv⟩
                    · exact hInv.base_le ep hmem
                    · have hpp : p₀ = p := by
                        rw [hp₀] at hlk
                        exact Option.some.inj hlk
                      rw [hkv, hpp, hfdef]
                      show baseSum (p.add_card card).cards_history ≤ 31
                      rw [add_card_base p card]
                      omega
                  · intro hop
                    exact absurd hop h3
                have hg3 := autoFinish_inv (advance_turn_inv hg1) rand
                rcases haf : autoFinish ({ g with
                    players := (aupdate email (fun q => q.add_card card) g.players),
                    available_cards := deck' }).advance_turn rand with ⟨g3, err⟩
                rw [haf] at hg3
                simp only at hg3
                cases err <;> simp only [haf] <;> exact hg3

theorem sumBase_zero {l : List (String × Player)}
    (h : ∀ ep ∈ l, ep.2.cards_history = []) :
    (l.map fun ep => baseSum ep.2.cards_history).sum = 0 := by
  induction l with
  | nil => rfl
  | cons kv rest ih =>
    simp only [List.map_cons, List.sum_cons]
    rw [h kv (List.mem_cons_self _ _), ih fun ep hep => h ep (List.mem_cons_of_mem _ hep)]
    rfl

theorem svcEnroll_inv {g : Game} (hInv : Inv g) (uid : Nat) (email : String)
    (now : Int) : Inv (svcEnroll g uid email now).1 := by
  unfold svcEnroll
  by_cases h1 : g.is_enrollment_open now = false
  · rw [if_pos h1]
    exact hInv
  · rw [if_neg h1]
    by_cases h2 : g.can_enroll now = false
    · rw [if_pos h2]
      exact hInv
    · rw [if_neg h2]
      have hap := add_player_inv hInv email
      rcases h3 : g.add_player email with ⟨g', r⟩
      rw [h3] at hap
      simp only at hap
      cases r with
      | error e =>
        simp only [h3]
        exact hap
      | ok u =>
        simp only [h3]
        exact @inv_congr g' (g'.add_participant uid email) rfl rfl rfl (Or.inr rfl) hap

theorem svcKick_inv {g : Game} (hInv : Inv g) (kicker target : Nat) :
    Inv (svcKick g kicker target).1 := by
  unfold svcKick
  by_cases h1 : g.can_user_perform kicker GamePermission.KickPlayers = false
  · rw [if_pos h1]
    exact hInv
  · rw [if_neg h1]
    by_cases h2 : g.is_creator target
    · rw [if_pos h2]
      exact hInv
    · rw [if_neg h2]
      by_cases h3 : g.enrollment_closed
      · rw [if_pos h3]
        exact hInv
      · rw [if_neg h3]
        cases hlk : alookup target g.participants with
        | none =>
          simp only [hlk]
          exact hInv
        | some part =>
          simp only [hlk]
          have hop : g.enrollment_closed = false := by
            cases hv : g.enrollment_closed
            · rfl
            · exact absurd hv h3
          have hhands := hInv.open_hands hop
          refine ⟨?_, ?_, ?_, hInv.formula_dealer, ?_, hInv.bust_dealer,
            hInv.deck_vals, ?_, ?_, hInv.base_dealer_le, ?_,
            hInv.dealer_aces_false, hInv.dealer_state_bust⟩
          · exact le_trans (List.length_filter_le _ _) hInv.players_le
          · exact hInv.keys_nodup.sublist ((List.filter_sublist _).map Prod.fst)
          · intro ep hep
            exact hInv.formula ep (List.mem_of_mem_filter hep)
          · intro ep hep
            exact hInv.bust ep (List.mem_of_mem_filter hep)
          · have hc := hInv.conserve
            have hfil : ∀ ep ∈ g.players.filter
                (fun kv => decide ¬kv.1 = part.email), ep.2.cards_history = [] :=
              fun ep hep => hhands ep (List.mem_of_mem_filter hep)
            simp only [playersBase] at hc ⊢
            rw [sumBase_zero hhands] at hc
            rw [sumBase_zero hfil]
            omega
          · intro ep hep
            exact hInv.base_le ep (List.mem_of_mem_filter hep)
          · intro hop2 ep hep
            exact hhands ep (List.mem_of_mem_filter hep)

theorem svcFinish_inv {g : Game} (hInv : Inv g) (uid : Nat) :
    Inv (svcFinish g uid).1 := by
  unfold svcFinish
  by_cases h1 : g.can_user_perform uid GamePermission.FinishGame = false
  · rw [if_pos h1]
    exact hInv
  · rw [if_neg h1]
    exact finish_game_inv hInv

theorem inv_step {g g' : Game} (hInv : Inv g) (hs : Step g g') : Inv g' := by
  cases hs with
  | draw_card email i rand => exact draw_card_inv hInv email i rand
  | stand email rand => exact stand_inv hInv email rand
  | add_player email => exact add_player_inv hInv email
  | close_enrollment => exact close_enrollment_inv hInv
  | set_ace_value email cid b => exact set_ace_value_inv hInv email cid b
  | play_dealer rand => exact play_dealer_inv hInv rand
  | finish_game => exact finish_game_inv hInv
  | enroll uid email now => exact svcEnroll_inv hInv uid email now
  | kick kicker target => exact svcKick_inv hInv kicker target
  | finish_svc uid => exact svcFinish_inv hInv uid

theorem inv_reachable {g : Game} (h : Reachable g) : Inv g := by
  induction h with
  | new cid email t s g hnew => exact inv_new hnew
  | step g g' hr hs ih => exact inv_step ih hs

theorem deck_nonempty {g : Game} (hInv : Inv g) : g.available_cards ≠ [] := by
  intro hnil
  have h1 : (g.players.map fun ep => baseSum ep.2.cards_history).sum
      ≤ 31 * g.players.length := sumBase_le_of_bounds hInv.base_le
  have h2 := hInv.players_le
  have h3 := hInv.base_dealer_le
  have h4 := hInv.conserve
  have hbnil : baseSum ([] : List Card) = 0 := rfl
  rw [hnil, hbnil] at h4
  simp only [playersBase] at h4
  omega

theorem can_player_act_elim {g : Game} {email : String}
    (h : g.can_player_act email = true) :
    g.enrollment_closed = true ∧
    g.turn_order[g.current_turn_index]? = some email ∧
    ∃ p, alookup email g.players = some p ∧ p.state = PlayerState.Active := by
  unfold Game.can_player_act at h
  by_cases hc : g.enrollment_closed = false
  · rw [if_pos hc] at h
    cases h
  · rw [if_neg hc] at h
    have hcl : g.enrollment_closed = true := by
      cases hv : g.enrollment_closed
      · exact absurd hv hc
      · rfl
    refine ⟨hcl, ?_⟩
    cases hcur : g.get_current_player with
    | none =>
      rw [hcur] at h
      cases h
    | some current =>
      rw [hcur] at h
      simp only at h
      by_cases he : current = email
      · rw [if_pos he] at h
        cases hlk : alookup email g.players with
        | none =>
          rw [hlk] at h
          cases h
        | some p =>
          rw [hlk] at h
          simp only at h
          have hact : p.state = PlayerState.Active := of_decide_eq_true h
          have hto : g.turn_order[g.current_turn_index]? = some email := by
            unfold Game.get_current_player at hcur
            by_cases hne : g.turn_order = []
            · rw [if_pos hne] at hcur
              cases hcur
            · rw [if_neg hne] at hcur
              rw [hcur, he]
          exact ⟨hto, ⟨p, rfl, hact⟩⟩
      · rw [if_neg he] at h
        cases h

theorem can_player_act_false_of_absent {g : Game} {email : String}
    (h : alookup email g.players = none) : g.can_player_act email = false := by
  unfold Game.can_player_act
  by_cases hc : g.enrollment_closed = false
  · rw [if_pos hc]
  · rw [if_neg hc]
    cases hcur : g.get_current_player with
    | none => rfl
    | some current =>
      simp only
      by_cases he : current = email
      · rw [if_pos he, h]
      · rw [if_neg he]

theorem terminal_errors (g : Game) (email : String) (i : Nat) (rand : List Nat)
    (h : g.finished = true) :
    (g.draw_card email i rand).2 = Except.error GameError.GameAlreadyFinished ∧
    (g.stand email rand).2 = Except.error GameError.GameAlreadyFinished := by
  unfold Game.draw_card Game.stand
  simp [h]

theorem open_enrollment_errors {g : Game} (hfin : g.finished = false)
    (hcl : g.enrollment_closed = false) (hdk : g.available_cards ≠ [])
    (email : String) (i : Nat) (rand : List Nat) :
    (g.draw_card email i rand).2 = Except.error GameError.EnrollmentNotClosed ∧
    (g.stand email rand).2 = Except.error GameError.EnrollmentNotClosed := by
  unfold Game.draw_card Game.stand
  simp [hfin, hcl, hdk]

theorem draw_card_ok_act {g : Game} {email : String} {i : Nat} {rand : List Nat}
    {c : Card} (h : (g.draw_card email i rand).2 = Except.ok c) :
    g.can_player_act email = true := by
  unfold Game.draw_card at h
  by_cases h1 : g.finished
  · rw [if_pos h1] at h
    simp at h
  · rw [if_neg h1] at h
    by_cases h2 : g.available_cards = []
    · rw [if_pos h2] at h
      simp at h
    · rw [if_neg h2] at h
      by_cases h3 : g.enrollment_closed = false
      · rw [if_pos h3] at h
        simp at h
      · rw [if_neg h3] at h
        by_cases h4 : g.can_player_act email = false
        · rw [if_pos h4] at h
          simp at h
        · cases hv : g.can_player_act email
          · exact absurd hv h4
          · rfl

theorem stand_ok_act {g : Game} {email : String} {rand : List Nat}
    (h : (g.stand email rand).2 = Except.ok ()) :
    g.can_player_act email = true := by
  unfold Game.stand at h
  by_cases h1 : g.finished
  · rw [if_pos h1] at h
    simp at h
  · rw [if_neg h1] at h
    by_cases h3 : g.enrollment_closed = false
    · rw [if_pos h3] at h
      simp at h
    · rw [if_neg h3] at h
      by_cases h4 : g.can_player_act email = false
      · rw [if_pos h4] at h
        simp at h
      · cases hv : g.can_player_act email
        · exact absurd hv h4
        · rfl

theorem autoFinish_err {g : Game} (hfin : g.finished = false) (rand : List Nat) :
    ∀ e, (autoFinish g rand).2 = some e → e = GameError.DeckEmpty := by
  unfold autoFinish
  by_cases hc : g.check_auto_finish
  · rw [if_pos hc]
    obtain ⟨_, hsome, _, _⟩ := dealerLoop_post g.dealer g.available_cards rand
    rcases hdl : dealerLoop g.dealer g.available_cards rand with ⟨d, dk, err⟩
    rw [hdl] at hsome
    simp only at hsome
    unfold Game.play_dealer
    simp only [hfin, Bool.false_eq_true, if_false, hdl]
    cases err with
    | none =>
      intro e he
      cases he
    | some e0 =>
      simp only
      intro e he
      have hee : e0 = e := Option.some.inj he
      rw [← hee]
      exact (hsome e0 rfl).1
  · rw [if_neg hc]
    intro e he
    cases he

theorem bool_not_false {b : Bool} (h : ¬b = false) : b = true := by
  cases hv : b
  · exact absurd hv h
  · rfl

theorem bool_not_true {b : Bool} (h : ¬b = true) : b = false := by
  cases hv : b
  · rfl
  · exact absurd hv h

theorem draw_card_err_range {g : Game} (hInv : Inv g) (email : String) (i : Nat)
    (rand : List Nat) :
    ∀ e, (g.draw_card email i rand).2 = Except.error e →
      e = GameError.GameAlreadyFinished ∨ e = GameError.DeckEmpty ∨
      e = GameError.EnrollmentNotClosed ∨ e = GameError.NotPlayerTurn := by
  intro e he
  unfold Game.draw_card at he
  by_cases h1 : g.finished
  · rw [if_pos h1] at he
    have he' : Except.error GameError.GameAlreadyFinished
        = (Except.error e : Except GameError Card) := he
    exact Or.inl (Except.error.inj he').symm
  · rw [if_neg h1] at he
    by_cases h2 : g.available_cards = []
    · rw [if_pos h2] at he
      have he' : Except.error GameError.DeckEmpty
          = (Except.error e : Except GameError Card) := he
      exact Or.inr (Or.inl (Except.error.inj he').symm)
    · rw [if_neg h2] at he
      by_cases h3 : g.enrollment_closed = false
      · rw [if_pos h3] at he
        have he' : Except.error GameError.EnrollmentNotClosed
            = (Except.error e : Except GameError Card) := he
        exact Or.inr (Or.inr (Or.inl (Except.error.inj he').symm))
      · rw [if_neg h3] at he
        by_cases h4 : g.can_player_act email = false
        · rw [if_pos h4] at he
          have he' : Except.error GameError.NotPlayerTurn
              = (Except.error e : Except GameError Card) := he
          exact Or.inr (Or.inr (Or.inr (Except.error.inj he').symm))
        · rw [if_neg h4] at he
          obtain ⟨hcl, hto, p0, hlk0, hact0⟩ := can_player_act_elim (bool_not_false h4)
          rw [hlk0] at he
          simp only at he
          have hbf : p0.busted = false := by
            cases hv : p0.busted
            · rfl
            · have hst := (hInv.bust (email, p0) (alookup_mem hlk0)).2 hv
              rw [hact0] at hst
              cases hst
          rw [if_neg (by simp [hbf])] at he
          rw [if_neg (by simp [hact0])] at he
          rcases hdr : drawAt g.available_cards i with ⟨card, deck'⟩
          rw [hdr] at he
          simp only at he
          have hfinf : g.finished = false := bool_not_true h1
          split at he
          · simp at he
          · rename_i g3 e0 heq
            have hsnd := congrArg Prod.snd heq
            simp only at hsnd
            have hfin2 : (({ g with
                players := (aupdate email (fun q => q.add_card card) g.players),
                available_cards := deck' }).advance_turn).finished = false := by
              rw [(advance_turn_fields _).2.2.2.1]
              exact hfinf
            have hde := autoFinish_err hfin2 rand e0 hsnd
            have he' : Except.error e0 = (Except.error e : Except GameError Card) := he
            rw [← Except.error.inj he', hde]
            exact Or.inr (Or.inl rfl)

theorem stand_err_range {g : Game} (_hInv : Inv g) (email : String)
    (rand : List Nat) :
    ∀ e, (g.stand email rand).2 = Except.error e →
      e = GameError.GameAlreadyFinished ∨ e = GameError.EnrollmentNotClosed ∨
      e = GameError.NotPlayerTurn ∨ e = GameError.DeckEmpty := by
  intro e he
  unfold Game.stand at he
  by_cases h1 : g.finished
  · rw [if_pos h1] at he
    have he' : Except.error GameError.GameAlreadyFinished
        = (Except.error e : Except GameError Unit) := he
    exact Or.inl (Except.error.inj he').symm
  · rw [if_neg h1] at he
    by_cases h3 : g.enrollment_closed = false
    · rw [if_pos h3] at he
      have he' : Except.error GameError.EnrollmentNotClosed
          = (Except.error e : Except GameError Unit) := he
      exact Or.inr (Or.inl (Except.error.inj he').symm)
    · rw [if_neg h3] at he
      by_cases h4 : g.can_player_act email = false
      · rw [if_pos h4] at he
        have he' : Except.error GameError.NotPlayerTurn
            = (Except.error e : Except GameError Unit) := he
        exact Or.inr (Or.inr (Or.inl (Except.error.inj he').symm))
      · rw [if_neg h4] at he
        obtain ⟨hcl, hto, p0, hlk0, hact0⟩ := can_player_act_elim (bool_not_false h4)
        rw [hlk0] at he
        simp only at he
        rw [if_neg (by simp [hact0])] at he
        have hfinf : g.finished = false := bool_not_true h1
        split at he
        · simp at he
        · rename_i g3 e0 heq
          have hsnd := congrArg Prod.snd heq
          simp only at hsnd
          have hfin2 : (({ g with players := (aupdate email
              (fun q => { q with state := PlayerState.Standing })
              g.players) }).advance_turn).finished = false := by
            rw [(advance_turn_fields _).2.2.2.1]
            exact hfinf
          have hde := autoFinish_err hfin2 rand e0 hsnd
          have he' : Except.error e0 = (Except.error e : Except GameError Unit) := he
          rw [← Except.error.inj he', hde]
          exact Or.inr (Or.inr (Or.inr rfl))

theorem absent_not_player_turn {g : Game} (hInv : Inv g) {email : String}
    (hcl : g.enrollment_closed = true) (hfin : g.finished = false)
    (hlk : alookup email g.players = none) (i : Nat) (rand : List Nat) :
    (g.draw_card email i rand).2 = Except.error GameError.NotPlayerTurn ∧
    (g.stand email rand).2 = Except.error GameError.NotPlayerTurn := by
  have hdk := deck_nonempty hInv
  have hact := can_player_act_false_of_absent hlk
  unfold Game.draw_card Game.stand
  simp [hfin, hcl, hdk, hact]

/-! ## Claim C3: turn legality -/

/-- C3: on a reachable game with enrollment closed and not finished,
`draw_card email` and `stand email` return `Ok` only when
`turn_order[current_turn_index] = email` and that player's state is
`Active`; when enrollment is not closed they fail with
`EnrollmentNotClosed` (for `draw_card` this uses that the deck of a
reachable game is never empty, the `DeckEmpty` guard coming first in the
source); on a finished game they fail with `GameAlreadyFinished`. -/
theorem turn_legality (g : Game) (hg : Reachable g) (email : String) (i : Nat)
    (rand : List Nat) :
    (∀ c, (g.draw_card email i rand).2 = Except.ok c →
      g.turn_order[g.current_turn_index]? = some email ∧
      ∃ p, alookup email g.players = some p ∧ p.state = PlayerState.Active) ∧
    ((g.stand email rand).2 = Except.ok () →
      g.turn_order[g.current_turn_index]? = some email ∧
      ∃ p, alookup email g.players = some p ∧ p.state = PlayerState.Active) ∧
    (g.enrollment_closed = false → g.finished = false →
      (g.draw_card email i rand).2 = Except.error GameError.EnrollmentNotClosed ∧
      (g.stand email rand).2 = Except.error GameError.EnrollmentNotClosed) ∧
    (g.finished = true →
      (g.draw_card email i rand).2 = Except.error GameError.GameAlreadyFinished ∧
      (g.stand email rand).2 = Except.error GameError.GameAlreadyFinished) := by
  have hInv := inv_reachable hg
  refine ⟨?_, ?_, ?_, ?_⟩
  · intro c hok
    obtain ⟨_, hto, hex⟩ := can_player_act_elim (draw_card_ok_act hok)
    exact ⟨hto, hex⟩
  · intro hok
    obtain ⟨_, hto, hex⟩ := can_player_act_elim (stand_ok_act hok)
    exact ⟨hto, hex⟩
  · intro hcl hfin
    exact open_enrollment_errors hfin hcl (deck_nonempty hInv) email i rand
  · intro hfin
    exact terminal_errors g email i rand hfin

/-- Witness for `turn_legality` at the reachable closed game `exClosed`,
whose creator `a@x` may draw (the `Ok` branch is exercised: the draw
succeeds and the turn/Active conditions hold concretely). -/
theorem turn_legality_witness :
    (Reachable exClosed ∧
      (exClosed.draw_card "a@x" 0 []).2 = Except.ok
        { id := 0, name := "A", value := 1, suit := "Hearts" }) ∧
    ((∀ c, (exClosed.draw_card "a@x" 0 []).2 = Except.ok c →
      exClosed.turn_order[exClosed.current_turn_index]? = some "a@x" ∧
      ∃ p, alookup "a@x" exClosed.players = some p ∧
        p.state = PlayerState.Active) ∧
    ((exClosed.stand "a@x" []).2 = Except.ok () →
      exClosed.turn_order[exClosed.current_turn_index]? = some "a@x" ∧
      ∃ p, alookup "a@x" exClosed.players = some p ∧
        p.state = PlayerState.Active) ∧
    (exClosed.enrollment_closed = false → exClosed.finished = false →
      (exClosed.draw_card "a@x" 0 []).2
        = Except.error GameError.EnrollmentNotClosed ∧
      (exClosed.stand "a@x" []).2
        = Except.error GameError.EnrollmentNotClosed) ∧
    (exClosed.finished = true →
      (exClosed.draw_card "a@x" 0 []).2
        = Except.error GameError.GameAlreadyFinished ∧
      (exClosed.stand "a@x" []).2
        = Except.error GameError.GameAlreadyFinished)) :=
  ⟨⟨reachable_exClosed, by decide⟩,
   turn_legality exClosed reachable_exClosed "a@x" 0 []⟩

/-! ## Claim C10: unreachable error branches -/

/-- C10: on reachable games `draw_card` never returns `PlayerNotInGame`,
`PlayerAlreadyBusted` or `PlayerNotActive`, and `stand` never returns
`PlayerNotInGame` or `PlayerNotActive` (`can_player_act` already
guarantees an enrolled Active player, and a busted player cannot be
Active by the bust-coupling invariant); an email not enrolled at all
receives `NotPlayerTurn` when the game is closed and unfinished. -/
theorem unreachable_error_branches (g : Game) (hg : Reachable g) (email : String)
    (i : Nat) (rand : List Nat) :
    (g.draw_card email i rand).2 ≠ Except.error GameError.PlayerNotInGame ∧
    (g.draw_card email i rand).2 ≠ Except.error GameError.PlayerAlreadyBusted ∧
    (g.draw_card email i rand).2 ≠ Except.error GameError.PlayerNotActive ∧
    (g.stand email rand).2 ≠ Except.error GameError.PlayerNotInGame ∧
    (g.stand email rand).2 ≠ Except.error GameError.PlayerNotActive ∧
    (g.enrollment_closed = true → g.finished = false →
      alookup email g.players = none →
      (g.draw_card email i rand).2 = Except.error GameError.NotPlayerTurn ∧
      (g.stand email rand).2 = Except.error GameError.NotPlayerTurn) := by
  have hInv := inv_reachable hg
  refine ⟨?_, ?_, ?_, ?_, ?_, ?_⟩
  · intro hne
    rcases draw_card_err_range hInv email i rand _ hne with h | h | h | h <;> cases h
  · intro hne
    rcases draw_card_err_range hInv email i rand _ hne with h | h | h | h <;> cases h
  · intro hne
    rcases draw_card_err_range hInv email i rand _ hne with h | h | h | h <;> cases h
  · intro hne
    rcases stand_err_range hInv email rand _ hne with h | h | h | h <;> cases h
  · intro hne
    rcases stand_err_range hInv email rand _ hne with h | h | h | h <;> cases h
  · intro hcl hfin hlk
    exact absent_not_player_turn hInv hcl hfin hlk i rand

/-- Witness for `unreachable_error_branches` at `exClosed` with the
unenrolled email `z@y`: both calls answer `NotPlayerTurn`, never
`PlayerNotInGame`. -/
theorem unreachable_error_branches_witness :
    (Reachable exClosed ∧ exClosed.enrollment_closed = true ∧
      exClosed.finished = false ∧ alookup "z@y" exClosed.players = none) ∧
    ((exClosed.draw_card "z@y" 0 []).2 ≠ Except.error GameError.PlayerNotInGame ∧
    (exClosed.draw_card "z@y" 0 []).2 ≠ Except.error GameError.PlayerAlreadyBusted ∧
    (exClosed.draw_card "z@y" 0 []).2 ≠ Except.error GameError.PlayerNotActive ∧
    (exClosed.stand "z@y" []).2 ≠ Except.error GameError.PlayerNotInGame ∧
    (exClosed.stand "z@y" []).2 ≠ Except.error GameError.PlayerNotActive ∧
    (exClosed.enrollment_closed = true → exClosed.finished = false →
      alookup "z@y" exClosed.players = none →
      (exClosed.draw_card "z@y" 0 []).2 = Except.error GameError.NotPlayerTurn ∧
      (exClosed.stand "z@y" []).2 = Except.error GameError.NotPlayerTurn)) :=
  ⟨⟨reachable_exClosed, by decide, by decide, by decide⟩,
   unreachable_error_branches exClosed reachable_exClosed "z@y" 0 []⟩

theorem latch_of_eq {g g' : Game} {email : String} {p p' : Player}
    (hp : alookup email g.players = some p)
    (hp' : alookup email g'.players = some p')
    (hpl : g'.players = g.players) (hd : g'.dealer = g.dealer) :
    (p.state = PlayerState.Busted → p'.state = PlayerState.Busted) ∧
    (g.dealer.state = PlayerState.Busted →
      g'.dealer.state = PlayerState.Busted) := by
  rw [hpl, hp] at hp'
  have hpp : p = p' := Option.some.inj hp'
  rw [hd, ← hpp]
  exact ⟨id, id⟩

theorem play_dealer_players (g : Game) (rand : List Nat) :
    (g.play_dealer rand).1.players = g.players := by
  unfold Game.play_dealer
  by_cases hfin : g.finished
  · rw [if_pos hfin]
  · rw [if_neg hfin]
    rcases hdl : dealerLoop g.dealer g.available_cards rand with ⟨d, dk, err⟩
    cases err with
    | none => rfl
    | some e => rfl

theorem autoFinish_players (g : Game) (rand : List Nat) :
    (autoFinish g rand).1.players = g.players := by
  unfold autoFinish
  by_cases hc : g.check_auto_finish
  · rw [if_pos hc]
    have hpl := play_dealer_players g rand
    rcases hpd : g.play_dealer rand with ⟨g3, err⟩
    rw [hpd] at hpl
    cases err with
    | none => exact hpl
    | some e => exact hpl
  · rw [if_neg hc]

theorem play_dealer_dealer_of_busted {g : Game} (hbt : g.dealer.busted = true)
    (rand : List Nat) : (g.play_dealer rand).1.dealer = g.dealer := by
  unfold Game.play_dealer
  by_cases hfin : g.finished
  · rw [if_pos hfin]
  · rw [if_neg hfin]
    have hstop : dealerLoop g.dealer g.available_cards rand
        = (g.dealer, g.available_cards, none) :=
      dealerLoop_stop (by simp [hbt])
    simp only [hstop]
    rw [if_neg (by simp [hbt])]

theorem autoFinish_dealer_of_busted {g : Game} (hbt : g.dealer.busted = true)
    (rand : List Nat) : (autoFinish g rand).1.dealer = g.dealer := by
  unfold autoFinish
  by_cases hc : g.check_auto_finish
  · rw [if_pos hc]
    have hd := play_dealer_dealer_of_busted hbt rand
    rcases hpd : g.play_dealer rand with ⟨g3, err⟩
    rw [hpd] at hd
    cases err with
    | none => exact hd
    | some e => exact hd
  · rw [if_neg hc]

theorem close_enrollment_fields (g : Game) :
    g.close_enrollment.1.players = g.players ∧
    g.close_enrollment.1.dealer = g.dealer := by
  unfold Game.close_enrollment
  by_cases h : g.finished <;> simp [h]

theorem svcFinish_fields (g : Game) (uid : Nat) :
    (svcFinish g uid).1.players = g.players ∧
    (svcFinish g uid).1.dealer = g.dealer := by
  unfold svcFinish
  by_cases h : g.can_user_perform uid GamePermission.FinishGame = false <;>
    simp [h, Game.finish_game]

theorem add_player_players (g : Game) (e0 : String) :
    ((g.add_player e0).1.players = g.players ∨
      (g.add_player e0).1.players = g.players ++ [(e0, Player.new e0)]) ∧
    (g.add_player e0).1.dealer = g.dealer := by
  unfold Game.add_player
  split
  · exact ⟨Or.inl rfl, rfl⟩
  · split
    · exact ⟨Or.inl rfl, rfl⟩
    · split
      · exact ⟨Or.inl rfl, rfl⟩
      · split
        · exact ⟨Or.inl rfl, rfl⟩
        · split
          · exact ⟨Or.inl rfl, rfl⟩
          · split
            · exact ⟨Or.inl rfl, rfl⟩
            · exact ⟨Or.inr rfl, rfl⟩

theorem svcEnroll_players (g : Game) (uid : Nat) (e0 : String) (now : Int) :
    ((svcEnroll g uid e0 now).1.players = g.players ∨
      (svcEnroll g uid e0 now).1.players = g.players ++ [(e0, Player.new e0)]) ∧
    (svcEnroll g uid e0 now).1.dealer = g.dealer := by
  unfold svcEnroll
  split
  · exact ⟨Or.inl rfl, rfl⟩
  · split
    · exact ⟨Or.inl rfl, rfl⟩
    · obtain ⟨hpl, hd⟩ := add_player_players g e0
      rcases hap : g.add_player e0 with ⟨g2, r⟩
      rw [hap] at hpl hd
      cases r with
      | error e => exact ⟨hpl, hd⟩
      | ok u => exact ⟨hpl, hd⟩

theorem svcKick_fields (g : Game) (k t : Nat) :
    (svcKick g k t).1.dealer = g.dealer ∧
    ∀ {email : String} {p' : Player},
      alookup email (svcKick g k t).1.players = some p' →
      alookup email g.players = some p' := by
  unfold svcKick
  split
  · exact ⟨rfl, fun h => h⟩
  · split
    · exact ⟨rfl, fun h => h⟩
    · split
      · exact ⟨rfl, fun h => h⟩
      · split
        · exact ⟨rfl, fun h => h⟩
        · rename_i part hpart
          refine ⟨rfl, ?_⟩
          intro email p' hp'
          have hfk := alookup_filter_of_key email
            (fun x => decide ¬x = part.email) g.players
          rw [hfk] at hp'
          by_cases he : email = part.email
          · rw [if_neg (by simp [he])] at hp'
            cases hp'
          · rw [if_pos (by simp [he])] at hp'
            exact hp'

theorem recalculate_keeps_busted {q : Player} (h : q.state = PlayerState.Busted) :
    q.recalculate_points.state = PlayerState.Busted := by
  simp only [Player.recalculate_points]
  split
  · rfl
  · exact h

theorem set_ace_fields (g : Game) (e0 : String) (cid : Nat) (b : Bool) :
    (g.set_ace_value e0 cid b).1.dealer = g.dealer ∧
    ((g.set_ace_value e0 cid b).1.players = g.players ∨
      (g.set_ace_value e0 cid b).1.players = aupdate e0
        (fun q => Player.recalculate_points
          { q with ace_values := ainsert cid b q.ace_values }) g.players) := by
  unfold Game.set_ace_value
  split
  · exact ⟨rfl, Or.inl rfl⟩
  · split
    · exact ⟨rfl, Or.inl rfl⟩
    · split
      · exact ⟨rfl, Or.inl rfl⟩
      · split
        · exact ⟨rfl, Or.inl rfl⟩
        · exact ⟨rfl, Or.inr rfl⟩

theorem draw_card_shape (g : Game) (e0 : String) (i : Nat) (rand : List Nat) :
    (g.draw_card e0 i rand).1 = g ∨
    ∃ card g2, g2.dealer = g.dealer ∧
      g2.players = aupdate e0 (fun q => q.add_card card) g.players ∧
      (∃ pp, alookup e0 g.players = some pp ∧ pp.state = PlayerState.Active) ∧
      (g.draw_card e0 i rand).1 = (autoFinish g2 rand).1 := by
  unfold Game.draw_card
  by_cases h1 : g.finished
  · rw [if_pos h1]
    exact Or.inl rfl
  · rw [if_neg h1]
    by_cases h2 : g.available_cards = []
    · rw [if_pos h2]
      exact Or.inl rfl
    · rw [if_neg h2]
      by_cases h3 : g.enrollment_closed = false
      · rw [if_pos h3]
        exact Or.inl rfl
      · rw [if_neg h3]
        by_cases h4 : g.can_player_act e0 = false
        · rw [if_pos h4]
          exact Or.inl rfl
        · rw [if_neg h4]
          cases hlk : alookup e0 g.players with
          | none => exact Or.inl rfl
          | some p =>
            simp only
            by_cases h5 : p.busted
            · rw [if_pos h5]
              exact Or.inl rfl
            · rw [if_neg h5]
              by_cases h6 : p.state ≠ PlayerState.Active
              · rw [if_pos h6]
                exact Or.inl rfl
              · rw [if_neg h6]
                push_neg at h6
                right
                rcases hdr : drawAt g.available_cards i with ⟨card, deck'⟩
                refine ⟨card,
                  ({ g with
                    players := (aupdate e0 (fun q => q.add_card card) g.players),
                    available_cards := deck' }).advance_turn, ?_, ?_,
                  ⟨p, rfl, h6⟩, ?_⟩
                · rw [(advance_turn_fields _).2.1]
                · rw [(advance_turn_fields _).1]
                · dsimp only
                  rcases haf : autoFinish ({ g with
                      players := (aupdate e0 (fun q => q.add_card card) g.players),
                      available_cards := deck' }).advance_turn rand with ⟨g3, err⟩
                  rw [haf]
                  cases err with
                  | none => rfl
                  | some e => rfl

theorem stand_shape (g : Game) (e0 : String) (rand : List Nat) :
    (g.stand e0 rand).1 = g ∨
    ∃ g2, g2.dealer = g.dealer ∧
      g2.players = aupdate e0
        (fun q => { q with state := PlayerState.Standing }) g.players ∧
      (∃ pp, alookup e0 g.players = some pp ∧ pp.state = PlayerState.Active) ∧
      (g.stand e0 rand).1 = (autoFinish g2 rand).1 := by
  unfold Game.stand
  by_cases h1 : g.finished
  · rw [if_pos h1]
    exact Or.inl rfl
  · rw [if_neg h1]
    by_cases h3 : g.enrollment_closed = false
    · rw [if_pos h3]
      exact Or.inl rfl
    · rw [if_neg h3]
      by_cases h4 : g.can_player_act e0 = false
      · rw [if_pos h4]
        exact Or.inl rfl
      · rw [if_neg h4]
        cases hlk : alookup e0 g.players with
        | none => exact Or.inl rfl
        | some p =>
          simp only
          by_cases h6 : p.state ≠ PlayerState.Active
          · rw [if_pos h6]
            exact Or.inl rfl
          · rw [if_neg h6]
            push_neg at h6
            right
            refine ⟨({ g with players := (aupdate e0
                (fun q => { q with state := PlayerState.Standing })
                g.players) }).advance_turn, ?_, ?_, ⟨p, rfl, h6⟩, ?_⟩
            · rw [(advance_turn_fields _).2.1]
            · rw [(advance_turn_fields _).1]
            · rcases haf : autoFinish ({ g with players := (aupdate e0
                  (fun q => { q with state := PlayerState.Standing })
                  g.players) }).advance_turn rand with ⟨g3, err⟩
              rw [haf]
              cases err with
              | none => rfl
              | some e => rfl

theorem step_latch {g g' : Game} (hInv : Inv g) (hs : Step g g')
    {email : String} {p p' : Player}
    (hp : alookup email g.players = some p)
    (hp' : alookup email g'.players = some p') :
    (p.state = PlayerState.Busted → p'.state = PlayerState.Busted) ∧
    (g.dealer.state = PlayerState.Busted →
      g'.dealer.state = PlayerState.Busted) := by
  cases hs with
  | close_enrollment =>
    exact latch_of_eq hp hp' (close_enrollment_fields g).1 (close_enrollment_fields g).2
  | finish_game =>
    exact latch_of_eq hp hp' rfl rfl
  | finish_svc uid =>
    exact latch_of_eq hp hp' (svcFinish_fields g uid).1 (svcFinish_fields g uid).2
  | play_dealer rand =>
    have hpl := play_dealer_players g rand
    rw [hpl, hp] at hp'
    have hpp : p = p' := Option.some.inj hp'
    constructor
    · intro hb
      rw [← hpp]
      exact hb
    · intro hb
      have hbt := hInv.dealer_state_bust hb
      rw [play_dealer_dealer_of_busted hbt rand]
      exact hb
  | add_player e0 =>
    obtain ⟨hpl | hpl, hd⟩ := add_player_players g e0
    · exact latch_of_eq hp hp' hpl hd
    · rw [hpl, alookup_append, hp] at hp'
      simp only at hp'
      have hpp : p = p' := Option.some.inj hp'
      rw [hd, ← hpp]
      exact ⟨id, id⟩
  | enroll uid e0 now =>
    obtain ⟨hpl | hpl, hd⟩ := svcEnroll_players g uid e0 now
    · exact latch_of_eq hp hp' hpl hd
    · rw [hpl, alookup_append, hp] at hp'
      simp only at hp'
      have hpp : p = p' := Option.some.inj hp'
      rw [hd, ← hpp]
      exact ⟨id, id⟩
  | kick kicker target =>
    obtain ⟨hd, hlkp⟩ := svcKick_fields g kicker target
    have hp'' := hlkp hp'
    rw [hp] at hp''
    have hpp : p = p' := Option.some.inj hp''
    rw [hd, ← hpp]
    exact ⟨id, id⟩
  | set_ace_value e0 cid b =>
    obtain ⟨hd, hpl | hpl⟩ := set_ace_fields g e0 cid b
    · exact latch_of_eq hp hp' hpl hd
    · by_cases he : email = e0
      · subst he
        rw [hpl, alookup_aupdate_self, hp] at hp'
        simp only [Option.map_some'] at hp'
        have hpp : p' = Player.recalculate_points
            { p with ace_values := ainsert cid b p.ace_values } :=
          (Option.some.inj hp').symm
        constructor
        · intro hb
          rw [hpp]
          exact recalculate_keeps_busted hb
        · intro hb
          rw [hd]
          exact hb
      · rw [hpl, alookup_aupdate_ne he, hp] at hp'
        have hpp : p = p' := Option.some.inj hp'
        rw [hd, ← hpp]
        exact ⟨id, id⟩
  | draw_card e0 i rand =>
    rcases draw_card_shape g e0 i rand with hsame | ⟨card, g2, hd2, hp2, hex, hres⟩
    · rw [hsame] at hp' ⊢
      rw [hp] at hp'
      have hpp : p = p' := Option.some.inj hp'
      rw [← hpp]
      exact ⟨id, id⟩
    · have hpl : (g.draw_card e0 i rand).1.players
          = aupdate e0 (fun q => q.add_card card) g.players := by
        rw [hres, autoFinish_players g2 rand, hp2]
      constructor
      · intro hb
        by_cases he : email = e0
        · subst he
          obtain ⟨pp, hpp0, hact⟩ := hex
          rw [hp] at hpp0
          have hppe : p = pp := Option.some.inj hpp0
          rw [← hppe, hb] at hact
          cases hact
        · rw [hpl, alookup_aupdate_ne he, hp] at hp'
          have hppq : p = p' := Option.some.inj hp'
          rw [← hppq]
          exact hb
      · intro hb
        have hbt : g2.dealer.busted = true := by
          rw [hd2]
          exact hInv.dealer_state_bust hb
        have hdd : (g.draw_card e0 i rand).1.dealer = g.dealer := by
          rw [hres, autoFinish_dealer_of_busted hbt rand, hd2]
        rw [hdd]
        exact hb
  | stand e0 rand =>
    rcases stand_shape g e0 rand with hsame | ⟨g2, hd2, hp2, hex, hres⟩
    · rw [hsame] at hp' ⊢
      rw [hp] at hp'
      have hpp : p = p' := Option.some.inj hp'
      rw [← hpp]
      exact ⟨id, id⟩
    · have hpl : (g.stand e0 rand).1.players = aupdate e0
          (fun q => { q with state := PlayerState.Standing }) g.players := by
        rw [hres, autoFinish_players g2 rand, hp2]
      constructor
      · intro hb
        by_cases he : email = e0
        · subst he
          obtain ⟨pp, hpp0, hact⟩ := hex
          rw [hp] at hpp0
          have hppe : p = pp := Option.some.inj hpp0
          rw [← hppe, hb] at hact
          cases hact
        · rw [hpl, alookup_aupdate_ne he, hp] at hp'
          have hppq : p = p' := Option.some.inj hp'
          rw [← hppq]
          exact hb
      · intro hb
        have hbt : g2.dealer.busted = true := by
          rw [hd2]
          exact hInv.dealer_state_bust hb
        have hdd : (g.stand e0 rand).1.dealer = g.dealer := by
          rw [hres, autoFinish_dealer_of_busted hbt rand, hd2]
        rw [hdd]
        exact hb

/-! ## Claim C1: points consistency -/

/-- C1: in every reachable game every enrolled player and the dealer
satisfy the points formula — `points` equals the sum of `card.value`
over `cards_history` plus 10 for each Ace in the hand whose `ace_values`
entry is `true` — and `add_card` / `recalculate_points` (the primitives
through which `draw_card`, `play_dealer` and `set_ace_value` modify
hands) re-establish the formula for any player value and card. -/
theorem points_consistency (g : Game) (hg : Reachable g) (email : String)
    (p : Player) (hp : alookup email g.players = some p) (q : Player) (c : Card) :
    p.points = baseSum p.cards_history
      + 10 * elevenAceCount p.ace_values p.cards_history ∧
    g.dealer.points = baseSum g.dealer.cards_history
      + 10 * elevenAceCount g.dealer.ace_values g.dealer.cards_history ∧
    pointsFormula (q.add_card c) ∧ pointsFormula q.recalculate_points := by
  have hInv := inv_reachable hg
  exact ⟨hInv.formula (email, p) (alookup_mem hp), hInv.formula_dealer,
    pointsFormula_add_card q c, pointsFormula_recalculate q⟩

/-- Witness for `points_consistency` at the reachable state `exDraw3`
(hand Ace + King + 2, 13 points with the Ace at 1). -/
theorem points_consistency_witness :
    (Reachable exDraw3 ∧ alookup "a@x" exDraw3.players = some exPlayer3) ∧
    (exPlayer3.points = baseSum exPlayer3.cards_history
      + 10 * elevenAceCount exPlayer3.ace_values exPlayer3.cards_history ∧
    exDraw3.dealer.points = baseSum exDraw3.dealer.cards_history
      + 10 * elevenAceCount exDraw3.dealer.ace_values
          exDraw3.dealer.cards_history ∧
    pointsFormula ((Player.new "q").add_card
      { id := 99, name := "A", value := 1, suit := "Hearts" }) ∧
    pointsFormula (Player.new "q").recalculate_points) :=
  ⟨⟨reachable_exDraw3, by decide⟩,
   points_consistency exDraw3 reachable_exDraw3 "a@x" exPlayer3 (by decide)
     (Player.new "q") { id := 99, name := "A", value := 1, suit := "Hearts" }⟩

/-! ## Claim C2: bust coupling and bust latch -/

/-- C2 (corrected): in every reachable state `busted` equals
`decide (21 < points)` for every enrolled player and the dealer, a
busted player's `state` is `Busted`, and `state = Busted` is latched
across every engine and service operation.  The `busted` flag itself is
recomputed by every points recalculation and is NOT latched (see the
counterexample). -/
theorem bust_coupling (g g' : Game) (hg : Reachable g) (hs : Step g g')
    (email : String) (p p' : Player)
    (hp : alookup email g.players = some p)
    (hp' : alookup email g'.players = some p') :
    (p.busted = decide (21 < p.points) ∧
      (p.busted = true → p.state = PlayerState.Busted)) ∧
    (g.dealer.busted = decide (21 < g.dealer.points) ∧
      (g.dealer.busted = true → g.dealer.state = PlayerState.Busted)) ∧
    (p.state = PlayerState.Busted → p'.state = PlayerState.Busted) ∧
    (g.dealer.state = PlayerState.Busted →
      g'.dealer.state = PlayerState.Busted) := by
  have hInv := inv_reachable hg
  have hl := step_latch hInv hs hp hp'
  exact ⟨hInv.bust (email, p) (alookup_mem hp), hInv.bust_dealer, hl.1, hl.2⟩

/-- Witness for `bust_coupling` at the reachable busted state
`exBusted` and the `set_ace_value` step to `exUnbusted`: the busted
player's coupling facts hold and the Busted state is latched across the
step (non-vacuously: `exPB.state = Busted`). -/
theorem bust_coupling_witness :
    (Reachable exBusted ∧ Step exBusted exUnbusted ∧
      alookup "a@x" exBusted.players = some exPB ∧
      alookup "a@x" exUnbusted.players = some exPU ∧
      exPB.state = PlayerState.Busted) ∧
    ((exPB.busted = decide (21 < exPB.points) ∧
        (exPB.busted = true → exPB.state = PlayerState.Busted)) ∧
      (exBusted.dealer.busted = decide (21 < exBusted.dealer.points) ∧
        (exBusted.dealer.busted = true →
          exBusted.dealer.state = PlayerState.Busted)) ∧
      (exPB.state = PlayerState.Busted → exPU.state = PlayerState.Busted) ∧
      (exBusted.dealer.state = PlayerState.Busted →
        exUnbusted.dealer.state = PlayerState.Busted)) :=
  ⟨⟨reachable_exBusted, Step.set_ace_value exBusted "a@x" 0 false,
    by decide, by decide, by decide⟩,
   bust_coupling exBusted exUnbusted reachable_exBusted
     (Step.set_ace_value exBusted "a@x" 0 false) "a@x" exPB exPU
     (by decide) (by decide)⟩

/-- C2 counterexample: the busted FLAG is not latched.  In the reachable
state `exBusted` player `a@x` has 23 points and `busted = true`; the
legal `set_ace_value(.., false)` step to `exUnbusted` recomputes
`busted` to `false` (points drop to 13) while `state` stays `Busted`,
refuting the claim that once `busted` has become true it stays true. -/
theorem bust_coupling_cex :
    Reachable exBusted ∧ Step exBusted exUnbusted ∧
    (alookup "a@x" exBusted.players).map Player.busted = some true ∧
    (alookup "a@x" exUnbusted.players).map Player.busted = some false ∧
    (alookup "a@x" exUnbusted.players).map Player.state
      = some PlayerState.Busted :=
  ⟨reachable_exBusted, Step.set_ace_value exBusted "a@x" 0 false,
   by decide, by decide, by decide⟩

end Blackjack
